import Mathlib

/-!
Shallow embedding of the MWPM decoder in `qsurface/decoders/mwpm/sim.py`
(classes `Toric` and `Planar`), together with theorems checking the
natural-language specification against the code.

Conventions used throughout:
* Python integers become `Int`; non-negative loop counters become `Nat`.
* Python `%` on an `int` with a positive modulus agrees with `Int.emod`
  (both return a value in `[0, modulus)`), so `%` translates to `%`.
* Lattice collaborators (the `correct_edge` mutation primitive, the
  ancilla/pseudo qubit dictionaries, the networkx Dijkstra routine and the
  external Blossom V solver) are out of scope per the spec and are passed
  in as explicit function parameters.
* A Python list mutated by index assignment is modelled with `List.set`
  over an initial `List.replicate`.
* Exceptions are modelled with `Except String`.
-/

/-- A toric syndrome site: a 2D lattice coordinate `(x, y)` (the Python
`AncillaQubit.loc`) and a layer index `z`. -/
structure TSite where
  x : Int
  y : Int
  z : Int
  deriving DecidableEq, Repr, Inhabited

/-- Weight of the toric edge between sites `q0` and `q1`, mirroring the body
of the inner loop of `Toric.get_qubit_distances` (sim.py lines 162-168):
`wx = (x0 - x1) % size[0]`, `wy = (y0 - y1) % size[1]`, `wz = |z0 - z1|`,
`weight = min(wy, size[1] - wy) + min(wx, size[0] - wx) + wz`. -/
def Toric.pairWeight (size : Int × Int) (q0 q1 : TSite) : Int :=
  let wx := (q0.x - q1.x) % size.1
  let wy := (q0.y - q1.y) % size.2
  let wz := |q0.z - q1.z|
  min wy (size.2 - wy) + min wx (size.1 - wx) + wz

/-- Inner loop of `Toric.get_qubit_distances`:
`for i1, q1 in enumerate(qubits[i0+1:])` appending `[i0, i1+i0+1, weight]`.
`j` is the absolute index `i1 + i0 + 1` of the head of the remaining list. -/
def Toric.innerEdges (size : Int × Int) (i0 : Nat) (q0 : TSite) :
    Nat → List TSite → List (Nat × Nat × Int)
  | _, [] => []
  | j, q1 :: rest =>
      (i0, j, Toric.pairWeight size q0 q1) :: Toric.innerEdges size i0 q0 (j + 1) rest

/-- Outer loop of `Toric.get_qubit_distances`:
`for i0, q0 in enumerate(qubits[:-1])` (iterating the last element with an
empty inner loop produces nothing, so recursing over the whole list is
equivalent). `i0` is the absolute index of the head of the remaining list. -/
def Toric.edgesAux (size : Int × Int) : Nat → List TSite → List (Nat × Nat × Int)
  | _, [] => []
  | i0, q0 :: rest =>
      Toric.innerEdges size i0 q0 (i0 + 1) rest ++ Toric.edgesAux size (i0 + 1) rest

/-- `Toric.get_qubit_distances(qubits, size)` (sim.py lines 154-170): the
complete distance graph over a list of toric syndrome sites. -/
def Toric.get_qubit_distances (qubits : List TSite) (size : Int × Int) :
    List (Nat × Nat × Int) :=
  Toric.edgesAux size 0 qubits

/-- The toric edge weight exactly as the specification words it:
`min(dx mod Px, Px - dx mod Px) + min(dy mod Py, Py - dy mod Py) + |zA - zB|`,
where `dx` and `dy` are the coordinate differences. -/
def spec_toricWeight (size : Int × Int) (A B : TSite) : Int :=
  min ((A.x - B.x) % size.1) (size.1 - (A.x - B.x) % size.1)
    + min ((A.y - B.y) % size.2) (size.2 - (A.y - B.y) % size.2)
    + |A.z - B.z|


/-! ### Matching service adapter: the Blossom V backend -/

/-- `Toric.match_blossomv` (sim.py lines 108-152).  The foreign pieces are
collaborators passed in explicitly: `libPresent` says whether loading
`PMlib.so` succeeds (the `try: ctypes.CDLL(...) except: raise
FileNotFoundError` guard), and `pmatching` is the external
`PMlib.pyMatching` routine, returning the per-node partner-index array.
From that array the code keeps the pairs with `i0 > i1`. -/
def Toric.match_blossomv (libPresent : Bool)
    (pmatching : Nat → List (Nat × Nat × Int) → List Int)
    (edges : List (Nat × Nat × Int)) (num_nodes : Nat) :
    Except String (List (Nat × Int)) :=
  if num_nodes = 0 then .ok []
  else if libPresent then
    let matching := pmatching num_nodes edges
    .ok (matching.enum.filterMap fun p =>
      if (p.1 : Int) > p.2 then some p else none)
  else .error "Blossom5 library not found. See docs."

/-! ### Correction walker (toric) -/

/-- `Toric._walk_direction(q0, q1, size)` (sim.py lines 183-194): per-axis
comparison of the two wrapped distances, returning `(dx, dy, xd, yd)`.
Direction keys are the rational pairs the Python code uses. -/
def Toric.walk_direction (q0 q1 : TSite) (size : Int × Int) :
    Int × Int × (ℚ × ℚ) × (ℚ × ℚ) :=
  let dx0 := (q0.x - q1.x) % size.1
  let dx1 := (q1.x - q0.x) % size.1
  let dy0 := (q0.y - q1.y) % size.2
  let dy1 := (q1.y - q0.y) % size.2
  let dxxd : Int × (ℚ × ℚ) := if dx0 < dx1 then (dx0, (0.5, 0)) else (dx1, (-0.5, 0))
  let dyyd : Int × (ℚ × ℚ) := if dy0 < dy1 then (dy0, (0, -0.5)) else (dy1, (0, 0.5))
  (dxxd.1, dyyd.1, dxxd.2, dyyd.2)

/-- `Toric._walk_and_correct(qubit, length, key)` (sim.py lines 196-203).
`correctEdge` is the lattice collaborator `self.correct_edge`; `none` models
it raising, which the `try/except: break` absorbs by stopping the walk.
`S` is the mutable lattice state threaded through the correction calls. -/
def Toric.walk_and_correct {S Q : Type}
    (correctEdge : S → Q → ℚ × ℚ → Option (S × Q)) :
    S → Q → Nat → ℚ × ℚ → S × Q
  | s, q, 0, _ => (s, q)
  | s, q, n + 1, key =>
      match correctEdge s q key with
      | some sq => Toric.walk_and_correct correctEdge sq.1 sq.2 n key
      | none => (s, q)

/-- `Toric._correct_matched_qubits(aq0, aq1)` (sim.py lines 172-181).
`ancillas` and `pseudos` are the lattice's decode-layer qubit dictionaries
(`aq.loc in ancillas` modelled by `ancillas loc = some dq`).  The y-walk
starts from `dq0`, the x-walk from `dq1`; the returned weight is
`dy + dx + abs(aq0.z - aq1.z)`. -/
def Toric.correct_matched_qubits {S Q : Type}
    (correctEdge : S → Q → ℚ × ℚ → Option (S × Q))
    (ancillas : Int × Int → Option Q) (pseudos : Int × Int → Q)
    (size : Int × Int) (s : S) (aq0 aq1 : TSite) : S × Int :=
  let dq0 := match ancillas (aq0.x, aq0.y) with
    | some q => q
    | none => pseudos (aq0.x, aq0.y)
  let dq1 := match ancillas (aq1.x, aq1.y) with
    | some q => q
    | none => pseudos (aq1.x, aq1.y)
  let r := Toric.walk_direction aq0 aq1 size
  let s1 := (Toric.walk_and_correct correctEdge s dq0 r.2.1.toNat r.2.2.2).1
  let s2 := (Toric.walk_and_correct correctEdge s1 dq1 r.1.toNat r.2.2.1).1
  (s2, r.2.1 + r.1 + |aq0.z - aq1.z|)

/-- Number of walk steps actually performed before the walk runs out of
traversable edges.  This definition follows the specification's words
("contributes to weight accounting as steps actually taken"); it is the
spec-side notion compared against the weight the code returns. -/
def spec_stepsTaken {S Q : Type}
    (correctEdge : S → Q → ℚ × ℚ → Option (S × Q)) :
    S → Q → Nat → ℚ × ℚ → Nat
  | _, _, 0, _ => 0
  | s, q, n + 1, key =>
      match correctEdge s q key with
      | some sq => spec_stepsTaken correctEdge sq.1 sq.2 n key + 1
      | none => 0

/-! ### Planar sites and the planar distance-graph builder -/

/-- A planar lattice site (`AncillaQubit` / `PseudoQubit`): 2D location,
layer, the syndrome/state type tag, and the qubit-role tag (`"pA"` marks a
virtual/pseudo boundary qubit). -/
structure PSite where
  x : Int
  y : Int
  z : Int
  state_type : String
  qubit_type : String
  deriving DecidableEq, Repr, Inhabited

/-- Result record of `Planar.get_qubit_distances`: the edge list it returns
plus the `self.boundary_info` and `self.ancillas_matchingind` attributes it
stashes on the decoder object (modelled as explicit outputs). -/
structure PlanarGraphResult where
  edges : List (Nat × Nat × Int)
  boundary_info : List String
  ancillas_matchingind : List (Option PSite)
  deriving DecidableEq, Repr

/-- Inner loop of the real-to-real pass of `Planar.get_qubit_distances`
(sim.py lines 354-361): appends `[i0, i1, wy + wx + wz]` and sets
`ancillas_matchingind[i1] = a1`.  `i1` is the absolute index of the head. -/
def Planar.rrInner (a0 : PSite) (i0 : Nat) :
    Nat → List (PSite × PSite) → List (Nat × Nat × Int) → List (Option PSite) →
      List (Nat × Nat × Int) × List (Option PSite)
  | _, [], es, am => (es, am)
  | i1, q :: rest, es, am =>
      let a1 := q.1
      let wx := |a0.x - a1.x|
      let wy := |a0.y - a1.y|
      let wz := |a0.z - a1.z|
      Planar.rrInner a0 i0 (i1 + 1) rest
        (es ++ [(i0, i1, wy + wx + wz)]) (am.set i1 (some a1))

/-- Outer loop of the real-to-real pass (sim.py lines 351-361):
`for i0, (a0, _) in enumerate(qubits)`, setting
`ancillas_matchingind[i0] = a0` then running the inner loop. -/
def Planar.rrOuter :
    Nat → List (PSite × PSite) → List (Nat × Nat × Int) → List (Option PSite) →
      List (Nat × Nat × Int) × List (Option PSite)
  | _, [], es, am => (es, am)
  | i0, q :: rest, es, am =>
      let r := Planar.rrInner q.1 i0 (i0 + 1) rest es (am.set i0 (some q.1))
      Planar.rrOuter (i0 + 1) rest r.1 r.2

/-- Boundary pass of `Planar.get_qubit_distances` (sim.py lines 364-373):
for the `i`-th `(ancilla, pseudo)` tuple, appends the edge
`[i, n + i, int(abs(weight))]` with `weight = xb - xs` for state type `"x"`
and `yb - ys` otherwise, tags `boundary_info[n + i]` with `"L"` iff
`xb == 0` (else `"R"`), and sets `ancillas_matchingind[n + i] = pseudo`. -/
def Planar.boundaryLoop (n : Nat) :
    Nat → List (PSite × PSite) →
      List (Nat × Nat × Int) → List String → List (Option PSite) →
      List (Nat × Nat × Int) × List String × List (Option PSite)
  | _, [], es, bi, am => (es, bi, am)
  | i, q :: rest, es, bi, am =>
      let ancilla := q.1
      let pseudo := q.2
      let weight := if ancilla.state_type = "x" then pseudo.x - ancilla.x
        else pseudo.y - ancilla.y
      Planar.boundaryLoop n (i + 1) rest
        (es ++ [(i, n + i, |weight|)])
        (bi.set (n + i) (if pseudo.x = 0 then "L" else "R"))
        (am.set (n + i) (some pseudo))

/-- Inner loop of the pseudo-qubit clique pass (sim.py lines 380-381):
`k` edges `(i0, i1, 0), (i0, i1+1, 0), ...`. -/
def Planar.bbInner (i0 : Nat) : Nat → Nat → List (Nat × Nat × Int)
  | _, 0 => []
  | i1, k + 1 => (i0, i1, 0) :: Planar.bbInner i0 (i1 + 1) k

/-- Outer loop of the pseudo-qubit clique pass (sim.py lines 379-381):
`for i0 in range(n, 2n): for i1 in range(i0+1, 2n)`, with `k` nodes left. -/
def Planar.bbOuter : Nat → Nat → List (Nat × Nat × Int)
  | _, 0 => []
  | i0, k + 1 => Planar.bbInner i0 (i0 + 1) k ++ Planar.bbOuter (i0 + 1) k

/-- `Planar.get_qubit_distances(qubits)` (sim.py lines 340-382): the edge
list over real sites and their paired boundary pseudo-qubits, together with
the `boundary_info` and `ancillas_matchingind` side effects. -/
def Planar.get_qubit_distances (qubits : List (PSite × PSite)) :
    PlanarGraphResult :=
  let n := qubits.length
  let st1 := Planar.rrOuter 0 qubits [] (List.replicate (2 * n) none)
  let st2 := Planar.boundaryLoop n 0 qubits
    st1.1 (List.replicate (2 * n) "") st1.2
  ⟨st2.1 ++ Planar.bbOuter n n, st2.2.1, st2.2.2⟩

/-- Pure form of the real-to-real inner loop's edge block (proof-side; tied
to `Planar.rrInner` by `Planar.rrInner_edges`). -/
def Planar.rrInnerEdges (a0 : PSite) (i0 : Nat) :
    Nat → List (PSite × PSite) → List (Nat × Nat × Int)
  | _, [] => []
  | i1, q :: rest =>
      (i0, i1, |a0.y - q.1.y| + |a0.x - q.1.x| + |a0.z - q.1.z|)
        :: Planar.rrInnerEdges a0 i0 (i1 + 1) rest

/-- Pure form of the real-to-real pass's edge list (proof-side; tied to
`Planar.rrOuter` by `Planar.rrOuter_edges`). -/
def Planar.rrEdges : Nat → List (PSite × PSite) → List (Nat × Nat × Int)
  | _, [] => []
  | i0, q :: rest =>
      Planar.rrInnerEdges q.1 i0 (i0 + 1) rest ++ Planar.rrEdges (i0 + 1) rest

/-- The real-to-own-boundary edge weight of the `i`-th tuple
(sim.py line 367). -/
def Planar.boundaryWeight (ancilla pseudo : PSite) : Int :=
  if ancilla.state_type = "x" then |pseudo.x - ancilla.x| else |pseudo.y - ancilla.y|

/-- Pure form of the boundary pass's edge block (proof-side; tied to
`Planar.boundaryLoop` by `Planar.boundaryLoop_edges`). -/
def Planar.rbEdges (n : Nat) : Nat → List (PSite × PSite) → List (Nat × Nat × Int)
  | _, [] => []
  | i, q :: rest =>
      (i, n + i,
        |if q.1.state_type = "x" then q.2.x - q.1.x else q.2.y - q.1.y|)
        :: Planar.rbEdges n (i + 1) rest

/-- The planar real-to-real weight as the specification words it:
`|Δx| + |Δy| + |Δlayer|`, no wrap. -/
def spec_planarWeight (A B : PSite) : Int :=
  |A.x - B.x| + |A.y - B.y| + |A.z - B.z|

/-! ### Correction walker (planar) and planar correction application -/

/-- `Planar._walk_direction(q0, q1)` (sim.py lines 384-391): no wrap, the
direction is the sign of the coordinate difference. -/
def Planar.walk_direction (q0 q1 : PSite) :
    Int × Int × (ℚ × ℚ) × (ℚ × ℚ) :=
  let dx := q0.x - q1.x
  let dy := q0.y - q1.y
  let xd : ℚ × ℚ := if dx > 0 then (0.5, 0) else (-0.5, 0)
  let yd : ℚ × ℚ := if dy > 0 then (0, -0.5) else (0, 0.5)
  (|dx|, |dy|, xd, yd)

/-- `Planar`'s inherited `_correct_matched_qubits` (sim.py lines 172-181
with the `Planar._walk_direction` override dispatched via `self`). -/
def Planar.correct_matched_qubits {S Q : Type}
    (correctEdge : S → Q → ℚ × ℚ → Option (S × Q))
    (ancillas : Int × Int → Option Q) (pseudos : Int × Int → Q)
    (s : S) (aq0 aq1 : PSite) : S × Int :=
  let dq0 := match ancillas (aq0.x, aq0.y) with
    | some q => q
    | none => pseudos (aq0.x, aq0.y)
  let dq1 := match ancillas (aq1.x, aq1.y) with
    | some q => q
    | none => pseudos (aq1.x, aq1.y)
  let r := Planar.walk_direction aq0 aq1
  let s1 := (Toric.walk_and_correct correctEdge s dq0 r.2.1.toNat r.2.2.2).1
  let s2 := (Toric.walk_and_correct correctEdge s1 dq1 r.1.toNat r.2.2.1).1
  (s2, r.2.1 + r.1 + |aq0.z - aq1.z|)

/-- `Planar.correct_matching(syndromes, matching)` (sim.py lines 330-338):
matched pairs with at least one index below `len(syndromes)` are corrected
(index `< n` selects the real ancilla of tuple `i`, index `>= n` the
boundary pseudo-qubit of tuple `i - n`) and their weights accumulated;
other pairs are passed over. -/
def Planar.correct_matching {S Q : Type}
    (correctEdge : S → Q → ℚ × ℚ → Option (S × Q))
    (ancillas : Int × Int → Option Q) (pseudos : Int × Int → Q)
    (syndromes : List (PSite × PSite)) (matching : List (Nat × Nat))
    (s : S) : S × Int :=
  matching.foldl (fun st p =>
    if p.1 < syndromes.length ∨ p.2 < syndromes.length then
      let aq0 := if p.1 < syndromes.length then (syndromes.getD p.1 default).1
        else (syndromes.getD (p.1 - syndromes.length) default).2
      let aq1 := if p.2 < syndromes.length then (syndromes.getD p.2 default).1
        else (syndromes.getD (p.2 - syndromes.length) default).2
      let r := Planar.correct_matched_qubits correctEdge ancillas pseudos st.1 aq0 aq1
      (r.1, st.2 + r.2)
    else st) (s, 0)

/-! ### Planar failure estimator (`Planar.calc_phi`) -/

/-- A data-qubit `x`-edge object as read by `calc_phi` (sim.py line 236):
its `state_type` and its two incident nodes `edge.nodes`. -/
structure DQEdge where
  state_type : String
  node0 : PSite
  node1 : PSite
  deriving DecidableEq, Repr, Inhabited

/-- `Planar.get_weight(a0, a1)` (sim.py lines 223-229). -/
def Planar.get_weight (a0 a1 : PSite) : Int :=
  let wx := |a0.x - a1.x|
  let wy := |a0.y - a1.y|
  let wz := |a0.z - a1.z|
  wy + wx + wz

/-- First pass of `calc_phi` (sim.py lines 240-251): collect the boundary
(`qubit_type == 'pA'`) nodes of the `x`-type edges into `boundary_nodes`
(a Python `set`, modelled as an insertion-ordered duplicate-free list) and
add each such edge to the graph with weight `-log(p/(1-p))`, abstracted as
the opaque value `logw`.  The graph is the list of `add_edge` events. -/
def Planar.phiBase {W : Type} (logw : W) (dq_edges : List DQEdge) :
    List PSite × List (PSite × PSite × W) :=
  dq_edges.foldl (fun st e =>
    if e.state_type = "x" then
      let bn1 := if e.node0.qubit_type = "pA" ∧ e.node0 ∉ st.1
        then st.1 ++ [e.node0] else st.1
      let bn2 := if e.node1.qubit_type = "pA" ∧ e.node1 ∉ bn1
        then bn1 ++ [e.node1] else bn1
      (bn2, st.2 ++ [(e.node0, e.node1, logw)])
    else st) ([], [])

/-- Element of `self.ancillas_matchingind` at a node index (Python reads
`self.ancillas_matchingind[a]`; unset `None` entries fall back to the
default site). -/
def Planar.amindAt (amind : List (Option PSite)) (k : Nat) : PSite :=
  (amind.getD k none).getD default

/-- Inner three loops of the shortcut pass of `calc_phi` (sim.py lines
261-266) for one matched pair `(n0, n1)`: for every data-qubit edge, every
matched endpoint `a` and every incident node `b`, add a weight-0 edge
whenever `get_weight(am[a], b) < get_weight(am[n0], am[n1]) / 2`
(`w < ew / 2` on integers is `2 * w < ew`). -/
def Planar.pairShortcuts {W : Type} [Zero W] (amind : List (Option PSite))
    (dq_edges : List DQEdge) (n0 n1 : Nat) : List (PSite × PSite × W) :=
  let ew := Planar.get_weight (Planar.amindAt amind n0) (Planar.amindAt amind n1)
  dq_edges.flatMap fun dq =>
    [n0, n1].flatMap fun a =>
      [dq.node0, dq.node1].filterMap fun b =>
        if 2 * Planar.get_weight (Planar.amindAt amind a) b < ew then
          some (Planar.amindAt amind a, b, (0 : W))
        else none

/-- Shortcut pass of `calc_phi` (sim.py lines 259-266): for every matched
pair with `boundary_info[node0] == '' or boundary_info[node1] == ''`
(i.e. at least one endpoint is a real, untagged node), add its shortcut
edges. -/
def Planar.shortcutEdges {W : Type} [Zero W] (matching : List (Nat × Nat))
    (binfo : List String) (amind : List (Option PSite))
    (dq_edges : List DQEdge) : List (PSite × PSite × W) :=
  matching.foldl (fun acc p =>
    if binfo.getD p.1 "" = "" ∨ binfo.getD p.2 "" = "" then
      acc ++ Planar.pairShortcuts amind dq_edges p.1 p.2
    else acc) []

/-- One iteration of the same-side unification double loop of `calc_phi`
(sim.py lines 269-277), including its two `assert` statements (an assert
failure aborts the call, modelled as `.error`). -/
def Planar.unifyPair {W : Type} [Zero W] (sizeX : Int) (e1 e2 : PSite) :
    Except String (List (PSite × PSite × W)) :=
  if e1 ≠ e2 then
    if (e1.x = 0 ∧ e2.x = 0) ∨ (e1.x ≠ 0 ∧ e2.x ≠ 0) then
      if e1.x ≠ 0 ∧ e2.x ≠ 0 ∧ ¬(e1.x = sizeX ∧ e2.x = sizeX) then
        .error "AssertionError"
      else if e1.x ≠ e2.x then .error "AssertionError"
      else .ok [(e1, e2, (0 : W))]
    else .ok []
  else .ok []

/-- Same-side unification pass of `calc_phi` (sim.py lines 269-277):
`for elem1 in boundary_nodes: for elem2 in boundary_nodes: ...`. -/
def Planar.unifyEdges {W : Type} [Zero W] (sizeX : Int) (bn : List PSite) :
    Except String (List (PSite × PSite × W)) :=
  (bn.flatMap fun e1 => bn.map fun e2 => (e1, e2)).foldlM
    (fun acc p => do
      let es ← Planar.unifyPair sizeX p.1 p.2
      pure (acc ++ es)) []

/-- Hub-selection loop of `calc_phi` (sim.py lines 281-286): the plain
`for`/`if`/`elif` assignments to `s` and `t`; a later qualifying node
overwrites an earlier one, and `none` models the variable staying unbound
(Python's `NameError` at the Dijkstra call). -/
def Planar.pickHubs (bn : List PSite) : Option PSite × Option PSite :=
  bn.foldl (fun st e =>
    if e.x = 0 ∧ e.y = 0 then (some e, st.2)
    else if e.y = 0 then (st.1, some e)
    else st) (none, none)

/-- `Planar.calc_phi` (sim.py lines 231-298).  The data-qubit `x`-edges,
the stored matching, `boundary_info` and `ancillas_matchingind`, and the
lattice x-extent are inputs; `logw` stands for the float `-log(p/(1-p))`
and `dijkstra` for the external `networkx.single_source_dijkstra` routine
(returning the path length). -/
def Planar.calc_phi {W L : Type} [Zero W] (logw : W)
    (dijkstra : List (PSite × PSite × W) → PSite → PSite → L)
    (dq_edges : List DQEdge) (matching : List (Nat × Nat))
    (binfo : List String) (amind : List (Option PSite)) (sizeX : Int) :
    Except String L :=
  let base := Planar.phiBase logw dq_edges
  let g1 := base.2 ++ Planar.shortcutEdges matching binfo amind dq_edges
  match Planar.unifyEdges sizeX base.1 with
  | .error e => .error e
  | .ok gu =>
      match Planar.pickHubs base.1 with
      | (some s, some t) => .ok (dijkstra (g1 ++ gu) s t)
      | _ => .error "NameError"

/-! ### Decoder orchestrator -/

/-- The two syndrome types handed back by `get_syndrome`. -/
inductive SyndromeType
  | plaq
  | star
  deriving DecidableEq, Repr

/-- Orchestration steps of one decoding pass.  `buildGraph t` is the
`get_qubit_distances` call inside `match_syndromes` for syndrome type `t`,
`matchStep t` the matching-backend call, `correctStep t` the
`correct_matching` call, and `estimateFailure` the `calc_phi` call. -/
inductive DecodeStep
  | extractSyndromes
  | buildGraph (t : SyndromeType)
  | matchStep (t : SyndromeType)
  | correctStep (t : SyndromeType)
  | estimateFailure
  deriving DecidableEq, Repr

/-- The orchestration steps performed by `Toric.decode` (sim.py lines
36-40): `get_syndrome`, then build/match/correct for the plaquettes, then
build/match/correct for the stars. -/
def Toric.decodeTrace : List DecodeStep :=
  [.extractSyndromes,
    .buildGraph .plaq, .matchStep .plaq, .correctStep .plaq,
    .buildGraph .star, .matchStep .star, .correctStep .star]

/-- The orchestration steps performed by `Planar.decode` (sim.py lines
212-221): `get_syndrome(find_pseudo=True)`, then build/match/correct for
the plaquettes only (the star call on line 216 is commented out), then
`calc_phi`. -/
def Planar.decodeTrace : List DecodeStep :=
  [.extractSyndromes,
    .buildGraph .plaq, .matchStep .plaq, .correctStep .plaq,
    .estimateFailure]

/-! ## Theorems -/

theorem Toric.innerEdges_length (size : Int × Int) (i0 : Nat) (q0 : TSite) :
    ∀ (j : Nat) (l : List TSite), (Toric.innerEdges size i0 q0 j l).length = l.length
  | _, [] => rfl
  | j, _ :: rest => by
      simp [Toric.innerEdges, Toric.innerEdges_length size i0 q0 (j + 1) rest]

theorem Toric.edgesAux_length_two_mul (size : Int × Int) :
    ∀ (i0 : Nat) (l : List TSite),
      2 * (Toric.edgesAux size i0 l).length = l.length * (l.length - 1)
  | _, [] => rfl
  | i0, q0 :: rest => by
      have ih := Toric.edgesAux_length_two_mul size (i0 + 1) rest
      have harith : rest.length * (rest.length - 1) + 2 * rest.length
          = (rest.length + 1) * (rest.length + 1 - 1) := by
        cases rest with
        | nil => rfl
        | cons r rs => simp only [List.length_cons, Nat.add_sub_cancel]; ring
      simp only [Toric.edgesAux, List.length_append, Toric.innerEdges_length,
        List.length_cons]
      linarith [ih, harith]

theorem Toric.edgesAux_length (size : Int × Int) (i0 : Nat) (l : List TSite) :
    (Toric.edgesAux size i0 l).length = l.length * (l.length - 1) / 2 := by
  have h := Toric.edgesAux_length_two_mul size i0 l
  omega

theorem Toric.innerEdges_mem (size : Int × Int) (i0 : Nat) (q0 : TSite) :
    ∀ (j : Nat) (l : List TSite) (e : Nat × Nat × Int),
      e ∈ Toric.innerEdges size i0 q0 j l ↔
        ∃ k, k < l.length ∧
          e = (i0, j + k, Toric.pairWeight size q0 (l.getD k default))
  | _, [], e => by simp [Toric.innerEdges]
  | j, q1 :: rest, e => by
      simp only [Toric.innerEdges, List.mem_cons,
        Toric.innerEdges_mem size i0 q0 (j + 1) rest e]
      constructor
      · rintro (rfl | ⟨k, hk, rfl⟩)
        · exact ⟨0, by simp⟩
        · exact ⟨k + 1, by simpa using hk, by simp [Nat.add_assoc, Nat.add_comm 1 k]⟩
      · rintro ⟨k, hk, rfl⟩
        cases k with
        | zero => left; simp
        | succ k =>
            right
            refine ⟨k, by simpa using hk, ?_⟩
            simp [Nat.add_assoc, Nat.add_comm 1 k]

theorem Toric.edgesAux_mem (size : Int × Int) :
    ∀ (i0 : Nat) (l : List TSite) (e : Nat × Nat × Int),
      e ∈ Toric.edgesAux size i0 l ↔
        ∃ p q, p < q ∧ q < l.length ∧
          e = (i0 + p, i0 + q, Toric.pairWeight size (l.getD p default) (l.getD q default))
  | _, [], e => by simp [Toric.edgesAux]
  | i0, q0 :: rest, e => by
      simp only [Toric.edgesAux, List.mem_append,
        Toric.innerEdges_mem size i0 q0 (i0 + 1) rest e,
        Toric.edgesAux_mem size (i0 + 1) rest e]
      constructor
      · rintro (⟨k, hk, rfl⟩ | ⟨p, q, hpq, hq, rfl⟩)
        · refine ⟨0, k + 1, Nat.succ_pos k, by simpa using hk, ?_⟩
          simp only [List.getD_cons_zero, List.getD_cons_succ, Prod.mk.injEq, and_true]
          omega
        · refine ⟨p + 1, q + 1, by omega, by simpa using hq, ?_⟩
          simp only [List.getD_cons_succ, Prod.mk.injEq, and_true]
          omega
      · rintro ⟨p, q, hpq, hq, rfl⟩
        cases p with
        | zero =>
            left
            cases q with
            | zero => omega
            | succ k =>
                refine ⟨k, by simpa using hq, ?_⟩
                simp only [List.getD_cons_zero, List.getD_cons_succ, Prod.mk.injEq, and_true]
                omega
        | succ p =>
            right
            cases q with
            | zero => omega
            | succ q =>
                refine ⟨p, q, by omega, by simpa using hq, ?_⟩
                simp only [List.getD_cons_succ, Prod.mk.injEq, and_true]
                omega

theorem Toric.innerEdges_nodup (size : Int × Int) (i0 : Nat) (q0 : TSite) :
    ∀ (j : Nat) (l : List TSite), (Toric.innerEdges size i0 q0 j l).Nodup
  | _, [] => List.nodup_nil
  | j, q1 :: rest => by
      simp only [Toric.innerEdges, List.nodup_cons]
      refine ⟨fun hmem => ?_, Toric.innerEdges_nodup size i0 q0 (j + 1) rest⟩
      rw [Toric.innerEdges_mem] at hmem
      obtain ⟨k, hk, heq⟩ := hmem
      have h2 := congrArg (fun e => e.2.1) heq
      simp only at h2
      omega

theorem Toric.edgesAux_nodup (size : Int × Int) :
    ∀ (i0 : Nat) (l : List TSite), (Toric.edgesAux size i0 l).Nodup
  | _, [] => List.nodup_nil
  | i0, q0 :: rest => by
      rw [Toric.edgesAux, List.nodup_append]
      refine ⟨Toric.innerEdges_nodup size i0 q0 (i0 + 1) rest,
        Toric.edgesAux_nodup size (i0 + 1) rest, ?_⟩
      intro e he1 he2
      rw [Toric.innerEdges_mem] at he1
      rw [Toric.edgesAux_mem] at he2
      obtain ⟨k, hk, rfl⟩ := he1
      obtain ⟨p, q, hpq, hq, heq⟩ := he2
      have h1 := congrArg (fun e => e.1) heq
      simp only at h1
      omega

theorem Toric.pairWeight_eq_spec (size : Int × Int) (A B : TSite) :
    Toric.pairWeight size A B = spec_toricWeight size A B := by
  simp only [Toric.pairWeight, spec_toricWeight]
  ring

/-- C2: for a list of `n` toric syndrome sites and lattice size `(Px, Py)`,
`Toric.get_qubit_distances` returns exactly `n(n-1)/2` edges, exactly one per
unordered pair of site indices, and the weight of the edge between sites `A`
and `B` is `min(dx mod Px, Px - dx mod Px) + min(dy mod Py, Py - dy mod Py)
+ |zA - zB|` where `dx`, `dy` are the coordinate differences. -/
theorem C2_toric_distance_graph (qubits : List TSite) (size : Int × Int) :
    (Toric.get_qubit_distances qubits size).length
        = qubits.length * (qubits.length - 1) / 2
    ∧ (Toric.get_qubit_distances qubits size).Nodup
    ∧ (∀ i j, i < j → j < qubits.length →
        (i, j, spec_toricWeight size (qubits.getD i default) (qubits.getD j default))
          ∈ Toric.get_qubit_distances qubits size)
    ∧ (∀ e ∈ Toric.get_qubit_distances qubits size,
        ∃ i j, i < j ∧ j < qubits.length ∧
          e = (i, j, spec_toricWeight size (qubits.getD i default) (qubits.getD j default))) := by
  refine ⟨Toric.edgesAux_length size 0 qubits, Toric.edgesAux_nodup size 0 qubits, ?_, ?_⟩
  · intro i j hij hj
    rw [Toric.get_qubit_distances, Toric.edgesAux_mem]
    exact ⟨i, j, hij, hj, by
      simp only [Nat.zero_add, Toric.pairWeight_eq_spec]⟩
  · intro e he
    rw [Toric.get_qubit_distances, Toric.edgesAux_mem] at he
    obtain ⟨p, q, hpq, hq, rfl⟩ := he
    exact ⟨p, q, hpq, hq, by simp only [Nat.zero_add, Toric.pairWeight_eq_spec]⟩

/-- Witness for C2, the spec scenario: two toric syndromes at `(0,0,0)` and
`(3,0,0)` on a size-`(6,6)` lattice produce exactly the single edge
`(0, 1, 3)`, with weight `3`. -/
theorem C2_toric_distance_graph_witness :
    (0, 1, 3) ∈ Toric.get_qubit_distances [⟨0, 0, 0⟩, ⟨3, 0, 0⟩] (6, 6)
      ∧ (Toric.get_qubit_distances [⟨0, 0, 0⟩, ⟨3, 0, 0⟩] (6, 6)).length = 1 := by
  have h := C2_toric_distance_graph [⟨0, 0, 0⟩, ⟨3, 0, 0⟩] (6, 6)
  have hw : spec_toricWeight (6, 6)
      (([⟨0, 0, 0⟩, ⟨3, 0, 0⟩] : List TSite).getD 0 default)
      (([⟨0, 0, 0⟩, ⟨3, 0, 0⟩] : List TSite).getD 1 default) = 3 := by decide
  refine ⟨?_, ?_⟩
  · have hc := h.2.2.1 0 1 (by decide) (by decide)
    rw [hw] at hc
    exact hc
  · simpa using h.1

/-! ### C1: orchestrator steps per decoding pass -/

/-- C1 counterexample: the claim says toric and planar alike run
build/match/correct for both syndrome types in one decoding pass, but
`Planar.decode` performs none of the star-syndrome steps (sim.py line 216
is commented out), while `Toric.decode` does. -/
theorem C1_counterexample :
    DecodeStep.correctStep .star ∈ Toric.decodeTrace
      ∧ DecodeStep.buildGraph .star ∉ Planar.decodeTrace
      ∧ DecodeStep.matchStep .star ∉ Planar.decodeTrace
      ∧ DecodeStep.correctStep .star ∉ Planar.decodeTrace := by
  decide

/-- C1 (amended): `Toric.decode` performs the build-graph, match and
correct steps for both syndrome types; `Planar.decode` performs them for
the plaquette syndromes only and additionally invokes the failure
estimator, executing no star-syndrome step. -/
theorem C1_decode_trace :
    (DecodeStep.buildGraph .plaq ∈ Toric.decodeTrace
      ∧ DecodeStep.matchStep .plaq ∈ Toric.decodeTrace
      ∧ DecodeStep.correctStep .plaq ∈ Toric.decodeTrace
      ∧ DecodeStep.buildGraph .star ∈ Toric.decodeTrace
      ∧ DecodeStep.matchStep .star ∈ Toric.decodeTrace
      ∧ DecodeStep.correctStep .star ∈ Toric.decodeTrace
      ∧ DecodeStep.estimateFailure ∉ Toric.decodeTrace)
    ∧ (DecodeStep.buildGraph .plaq ∈ Planar.decodeTrace
      ∧ DecodeStep.matchStep .plaq ∈ Planar.decodeTrace
      ∧ DecodeStep.correctStep .plaq ∈ Planar.decodeTrace
      ∧ DecodeStep.estimateFailure ∈ Planar.decodeTrace
      ∧ DecodeStep.buildGraph .star ∉ Planar.decodeTrace
      ∧ DecodeStep.matchStep .star ∉ Planar.decodeTrace
      ∧ DecodeStep.correctStep .star ∉ Planar.decodeTrace) := by
  decide

/-! ### C5: missing Blossom V library -/

/-- C5 counterexample: invoked with node count `0` and the library absent,
`match_blossomv` returns the empty matching instead of raising (the
`num_nodes == 0` early return precedes the library load). -/
theorem C5_counterexample :
    Toric.match_blossomv false (fun _ _ => []) [] 0 = .ok [] := rfl

/-- C5 (amended): whenever the Blossom V backend is invoked with the
external library absent and a nonzero node count, it fails with the
missing-dependency error before returning any matching, for every edge
list and solver. -/
theorem C5_blossomv_missing_library
    (pmatching : Nat → List (Nat × Nat × Int) → List Int)
    (edges : List (Nat × Nat × Int)) (num_nodes : Nat)
    (h : num_nodes ≠ 0) :
    Toric.match_blossomv false pmatching edges num_nodes
      = .error "Blossom5 library not found. See docs." := by
  simp [Toric.match_blossomv, h]

/-- Witness for C5: a concrete invocation with one node and the library
absent yields the missing-dependency error. -/
theorem C5_blossomv_missing_library_witness :
    Toric.match_blossomv false (fun _ _ => []) [] 1
      = .error "Blossom5 library not found. See docs." :=
  C5_blossomv_missing_library (fun _ _ => []) [] 1 (by decide)

/-! ### C6: walk truncation and the returned correction weight -/

/-- C6 counterexample: matching `(0,0,0)` with `(0,2,0)` on a size-(6,6)
toric lattice against a lattice whose `correct_edge` always raises (so zero
steps are actually taken on each axis) still returns correction weight `2`:
the returned weight counts the planned steps, not the steps actually
taken. -/
theorem C6_counterexample :
    (@Toric.correct_matched_qubits Unit Unit
        (fun _ _ _ => none) (fun _ => some ()) (fun _ => ()) (6, 6) ()
        ⟨0, 0, 0⟩ ⟨0, 2, 0⟩).2
      ≠ (@spec_stepsTaken Unit Unit (fun _ _ _ => none) () ()
            (Toric.walk_direction ⟨0, 0, 0⟩ ⟨0, 2, 0⟩ (6, 6)).2.1.toNat
            (Toric.walk_direction ⟨0, 0, 0⟩ ⟨0, 2, 0⟩ (6, 6)).2.2.2 : Int)
        + (@spec_stepsTaken Unit Unit (fun _ _ _ => none) () ()
            (Toric.walk_direction ⟨0, 0, 0⟩ ⟨0, 2, 0⟩ (6, 6)).1.toNat
            (Toric.walk_direction ⟨0, 0, 0⟩ ⟨0, 2, 0⟩ (6, 6)).2.2.1 : Int)
        + |(0 : Int) - 0| := by
  decide

/-- C6 (amended): a correction walk that runs out of traversable edges
raises no error and silently skips the remaining steps on that axis, and
the weight returned by `_correct_matched_qubits` is the planned per-axis
step count plus the layer difference, independent of the lattice
collaborators and of any truncation that occurs during the walks. -/
theorem C6_walk_truncation_weight {S Q S2 Q2 : Type}
    (ce : S → Q → ℚ × ℚ → Option (S × Q))
    (ce2 : S2 → Q2 → ℚ × ℚ → Option (S2 × Q2))
    (anc : Int × Int → Option Q) (ps : Int × Int → Q)
    (anc2 : Int × Int → Option Q2) (ps2 : Int × Int → Q2)
    (size : Int × Int) (s : S) (q : Q) (n : Nat) (key : ℚ × ℚ) (s2 : S2)
    (aq0 aq1 : TSite)
    (h : ce s q key = none) :
    Toric.walk_and_correct ce s q (n + 1) key = (s, q)
    ∧ (Toric.correct_matched_qubits ce anc ps size s aq0 aq1).2
        = (Toric.correct_matched_qubits ce2 anc2 ps2 size s2 aq0 aq1).2
    ∧ (Toric.correct_matched_qubits ce anc ps size s aq0 aq1).2
        = (Toric.walk_direction aq0 aq1 size).2.1
          + (Toric.walk_direction aq0 aq1 size).1 + |aq0.z - aq1.z| := by
  refine ⟨?_, rfl, rfl⟩
  simp [Toric.walk_and_correct, h]

/-- Witness for C6: a concrete truncated walk stops silently at its start,
and the two weight equalities evaluated at the C6 counterexample input. -/
theorem C6_walk_truncation_weight_witness :
    @Toric.walk_and_correct Unit Unit (fun _ _ _ => none) () ()
        (1 + 1) (0, 0.5) = ((), ())
    ∧ (@Toric.correct_matched_qubits Unit Unit (fun _ _ _ => none)
          (fun _ => some ()) (fun _ => ()) (6, 6) () ⟨0, 0, 0⟩ ⟨0, 2, 0⟩).2
        = (@Toric.correct_matched_qubits Nat Unit
            (fun k _ _ => some (k + 1, ())) (fun _ => some ()) (fun _ => ())
            (6, 6) 0 ⟨0, 0, 0⟩ ⟨0, 2, 0⟩).2 := by
  have h := @C6_walk_truncation_weight Unit Unit Nat Unit
    (fun _ _ _ => none) (fun k _ _ => some (k + 1, ()))
    (fun _ => some ()) (fun _ => ()) (fun _ => some ()) (fun _ => ())
    (6, 6) () () 1 (0, 0.5) 0 ⟨0, 0, 0⟩ ⟨0, 2, 0⟩ rfl
  exact ⟨h.1, h.2.1⟩

/-! ### C7: toric walk-direction selection -/

theorem emod_sub_self_emod (a P : Int) : (a % P - a) % P = 0 := by
  rw [Int.sub_emod, Int.emod_emod_of_dvd a dvd_rfl]
  simp

theorem self_sub_emod_emod (a P : Int) : (a - a % P) % P = 0 := by
  rw [Int.sub_emod, Int.emod_emod_of_dvd a dvd_rfl]
  simp

/-- C7: on each axis independently, `Toric._walk_direction` selects the
shorter of the two wrapped distances; the direction returned with it is the
one that reaches the other endpoint modulo the lattice period (the x-walk
is issued from `q1`, the y-walk from `q0`); and when the two wrapped
distances are equal it deterministically selects the fixed default branch
on that axis (`(-0.5, 0)` for x, `(0, 0.5)` for y). -/
theorem Toric.walk_direction_x_char (q0 q1 : TSite) (size : Int × Int) :
    ((Toric.walk_direction q0 q1 size).1, (Toric.walk_direction q0 q1 size).2.2.1)
      = if (q0.x - q1.x) % size.1 < (q1.x - q0.x) % size.1
          then ((q0.x - q1.x) % size.1, ((0.5 : ℚ), (0 : ℚ)))
          else ((q1.x - q0.x) % size.1, ((-0.5 : ℚ), (0 : ℚ))) := by
  simp only [Toric.walk_direction]

theorem Toric.walk_direction_y_char (q0 q1 : TSite) (size : Int × Int) :
    ((Toric.walk_direction q0 q1 size).2.1, (Toric.walk_direction q0 q1 size).2.2.2)
      = if (q0.y - q1.y) % size.2 < (q1.y - q0.y) % size.2
          then ((q0.y - q1.y) % size.2, ((0 : ℚ), (-0.5 : ℚ)))
          else ((q1.y - q0.y) % size.2, ((0 : ℚ), (0.5 : ℚ))) := by
  simp only [Toric.walk_direction]

/-- C7: on each axis independently, `Toric._walk_direction` selects the
shorter of the two wrapped distances; the direction returned with it is the
one that reaches the other endpoint modulo the lattice period (the x-walk
is issued from `q1`, the y-walk from `q0`); and when the two wrapped
distances are equal it deterministically selects the fixed default branch
on that axis (`(-0.5, 0)` for x, `(0, 0.5)` for y). -/
theorem C7_toric_walk_direction (q0 q1 : TSite) (size : Int × Int) :
    (Toric.walk_direction q0 q1 size).1
        = min ((q0.x - q1.x) % size.1) ((q1.x - q0.x) % size.1)
    ∧ (Toric.walk_direction q0 q1 size).2.1
        = min ((q0.y - q1.y) % size.2) ((q1.y - q0.y) % size.2)
    ∧ ((Toric.walk_direction q0 q1 size).2.2.1 = ((0.5 : ℚ), (0 : ℚ)) →
        (q1.x + (Toric.walk_direction q0 q1 size).1 - q0.x) % size.1 = 0)
    ∧ ((Toric.walk_direction q0 q1 size).2.2.1 = ((-0.5 : ℚ), (0 : ℚ)) →
        (q1.x - (Toric.walk_direction q0 q1 size).1 - q0.x) % size.1 = 0)
    ∧ ((Toric.walk_direction q0 q1 size).2.2.2 = ((0 : ℚ), (-0.5 : ℚ)) →
        (q0.y - (Toric.walk_direction q0 q1 size).2.1 - q1.y) % size.2 = 0)
    ∧ ((Toric.walk_direction q0 q1 size).2.2.2 = ((0 : ℚ), (0.5 : ℚ)) →
        (q0.y + (Toric.walk_direction q0 q1 size).2.1 - q1.y) % size.2 = 0)
    ∧ ((q0.x - q1.x) % size.1 = (q1.x - q0.x) % size.1 →
        (Toric.walk_direction q0 q1 size).2.2.1 = ((-0.5 : ℚ), (0 : ℚ)))
    ∧ ((q0.y - q1.y) % size.2 = (q1.y - q0.y) % size.2 →
        (Toric.walk_direction q0 q1 size).2.2.2 = ((0 : ℚ), (0.5 : ℚ))) := by
  have hxc := Toric.walk_direction_x_char q0 q1 size
  have hyc := Toric.walk_direction_y_char q0 q1 size
  by_cases hcx : (q0.x - q1.x) % size.1 < (q1.x - q0.x) % size.1
    <;> by_cases hcy : (q0.y - q1.y) % size.2 < (q1.y - q0.y) % size.2
  all_goals (first | rw [if_pos hcx] at hxc | rw [if_neg hcx] at hxc)
  all_goals (first | rw [if_pos hcy] at hyc | rw [if_neg hcy] at hyc)
  all_goals rw [Prod.ext_iff] at hxc hyc
  all_goals obtain ⟨hx1, hx2⟩ := hxc
  all_goals obtain ⟨hy1, hy2⟩ := hyc
  all_goals simp only at hx1 hx2 hy1 hy2
  all_goals refine ⟨?_, ?_, ?_, ?_, ?_, ?_, ?_, ?_⟩
  all_goals first
    | (intro _
       rw [hx1, show q1.x + (q0.x - q1.x) % size.1 - q0.x
           = (q0.x - q1.x) % size.1 - (q0.x - q1.x) from by ring]
       exact emod_sub_self_emod _ _)
    | (intro _
       rw [hx1, show q1.x - (q1.x - q0.x) % size.1 - q0.x
           = (q1.x - q0.x) - (q1.x - q0.x) % size.1 from by ring]
       exact self_sub_emod_emod _ _)
    | (intro _
       rw [hy1, show q0.y - (q0.y - q1.y) % size.2 - q1.y
           = (q0.y - q1.y) - (q0.y - q1.y) % size.2 from by ring]
       exact self_sub_emod_emod _ _)
    | (intro _
       rw [hy1, show q0.y + (q1.y - q0.y) % size.2 - q1.y
           = (q1.y - q0.y) % size.2 - (q1.y - q0.y) from by ring]
       exact emod_sub_self_emod _ _)
    | (rw [hx1]
       first
         | exact (min_eq_left hcx.le).symm
         | exact (min_eq_right (le_of_not_lt hcx)).symm)
    | (rw [hy1]
       first
         | exact (min_eq_left hcy.le).symm
         | exact (min_eq_right (le_of_not_lt hcy)).symm)
    | (intro heq
       exact absurd heq (ne_of_lt hcx))
    | (intro heq
       exact absurd heq (ne_of_lt hcy))
    | (intro _
       exact hx2)
    | (intro _
       exact hy2)
    | (intro hdir
       rw [hx2] at hdir
       have h1 := congrArg Prod.fst hdir
       have hfalse : False := by norm_num at h1
       exact hfalse.elim)
    | (intro hdir
       rw [hy2] at hdir
       have h1 := congrArg Prod.snd hdir
       have hfalse : False := by norm_num at h1
       exact hfalse.elim)

/-- Witness for C7 at a concrete tied input: both wrapped x-distances of
`(0,0,0)` and `(3,0,0)` on a size-(6,6) lattice equal 3, and the selected
direction is the deterministic default branch. -/
theorem C7_toric_walk_direction_witness :
    (Toric.walk_direction ⟨0, 0, 0⟩ ⟨3, 0, 0⟩ (6, 6)).2.2.1 = ((-0.5 : ℚ), (0 : ℚ))
      ∧ (Toric.walk_direction ⟨0, 0, 0⟩ ⟨3, 0, 0⟩ (6, 6)).1 = 3 := by
  have h := C7_toric_walk_direction ⟨0, 0, 0⟩ ⟨3, 0, 0⟩ (6, 6)
  refine ⟨h.2.2.2.2.2.2.1 (by decide), ?_⟩
  rw [h.1]
  decide

/-! ### C10: boundary-to-boundary matched pairs are skipped -/

/-- C10: in `Planar.correct_matching`, a matched pair whose two indices
both refer to boundary pseudo-qubits (both at least the number of syndrome
tuples) is skipped entirely: removing it from the matching changes neither
the final lattice state nor the accumulated weight. -/
theorem C10_boundary_pair_skipped {S Q : Type}
    (ce : S → Q → ℚ × ℚ → Option (S × Q))
    (anc : Int × Int → Option Q) (ps : Int × Int → Q)
    (syndromes : List (PSite × PSite)) (m1 m2 : List (Nat × Nat))
    (i0 i1 : Nat) (s : S)
    (h0 : syndromes.length ≤ i0) (h1 : syndromes.length ≤ i1) :
    Planar.correct_matching ce anc ps syndromes (m1 ++ (i0, i1) :: m2) s
      = Planar.correct_matching ce anc ps syndromes (m1 ++ m2) s := by
  have hcond : ¬(i0 < syndromes.length ∨ i1 < syndromes.length) := by omega
  simp [Planar.correct_matching, List.foldl_append, hcond]

/-- Witness for C10: with one syndrome tuple, the matched pair `(1, 1)` of
two boundary indices leaves the state and weight of an empty matching. -/
theorem C10_boundary_pair_skipped_witness :
    @Planar.correct_matching Nat Unit
        (fun k _ _ => some (k + 1, ())) (fun _ => some ()) (fun _ => ())
        [(default, default)] [(1, 1)] 7
      = @Planar.correct_matching Nat Unit
        (fun k _ _ => some (k + 1, ())) (fun _ => some ()) (fun _ => ())
        [(default, default)] [] 7
    ∧ @Planar.correct_matching Nat Unit
        (fun k _ _ => some (k + 1, ())) (fun _ => some ()) (fun _ => ())
        [(default, default)] [(1, 1)] 7 = (7, 0) := by
  have h := @C10_boundary_pair_skipped Nat Unit
    (fun k _ _ => some (k + 1, ())) (fun _ => some ()) (fun _ => ())
    [(default, default)] [] [] 1 1 7 (by decide) (by decide)
  simp only [List.nil_append] at h
  exact ⟨h, by rw [h]; rfl⟩

/-! ### Planar distance-graph builder: structural lemmas -/

theorem Planar.rrInner_edges_eq (a0 : PSite) (i0 : Nat) :
    ∀ (i1 : Nat) (l : List (PSite × PSite)) (es : List (Nat × Nat × Int))
      (am : List (Option PSite)),
      (Planar.rrInner a0 i0 i1 l es am).1 = es ++ Planar.rrInnerEdges a0 i0 i1 l
  | _, [], es, am => by simp [Planar.rrInner, Planar.rrInnerEdges]
  | i1, q :: rest, es, am => by
      simp only [Planar.rrInner, Planar.rrInnerEdges]
      rw [Planar.rrInner_edges_eq a0 i0 (i1 + 1) rest _ _]
      simp

theorem Planar.rrOuter_edges_eq :
    ∀ (i0 : Nat) (l : List (PSite × PSite)) (es : List (Nat × Nat × Int))
      (am : List (Option PSite)),
      (Planar.rrOuter i0 l es am).1 = es ++ Planar.rrEdges i0 l
  | _, [], es, am => by simp [Planar.rrOuter, Planar.rrEdges]
  | i0, q :: rest, es, am => by
      simp only [Planar.rrOuter, Planar.rrEdges]
      rw [Planar.rrOuter_edges_eq (i0 + 1) rest _ _, Planar.rrInner_edges_eq]
      simp

theorem Planar.boundaryLoop_edges_eq (n : Nat) :
    ∀ (i : Nat) (l : List (PSite × PSite)) (es : List (Nat × Nat × Int))
      (bi : List String) (am : List (Option PSite)),
      (Planar.boundaryLoop n i l es bi am).1 = es ++ Planar.rbEdges n i l
  | _, [], es, bi, am => by simp [Planar.boundaryLoop, Planar.rbEdges]
  | i, q :: rest, es, bi, am => by
      simp only [Planar.boundaryLoop, Planar.rbEdges]
      rw [Planar.boundaryLoop_edges_eq n (i + 1) rest _ _ _]
      simp

theorem Planar.boundaryLoop_binfo_length (n : Nat) :
    ∀ (i : Nat) (l : List (PSite × PSite)) (es : List (Nat × Nat × Int))
      (bi : List String) (am : List (Option PSite)),
      ((Planar.boundaryLoop n i l es bi am).2.1).length = bi.length
  | _, [], es, bi, am => rfl
  | i, q :: rest, es, bi, am => by
      simp only [Planar.boundaryLoop]
      rw [Planar.boundaryLoop_binfo_length n (i + 1) rest _ _ _]
      simp

theorem Planar.boundaryLoop_binfo_lower (n : Nat) :
    ∀ (i : Nat) (l : List (PSite × PSite)) (es : List (Nat × Nat × Int))
      (bi : List String) (am : List (Option PSite)) (k : Nat), k < n + i →
      ((Planar.boundaryLoop n i l es bi am).2.1).getD k ""
        = bi.getD k ""
  | _, [], es, bi, am, k, _ => rfl
  | i, q :: rest, es, bi, am, k, hk => by
      simp only [Planar.boundaryLoop]
      rw [Planar.boundaryLoop_binfo_lower n (i + 1) rest _ _ _ k (by omega)]
      have hne : n + i ≠ k := by omega
      simp [List.getD_eq_getElem?_getD, List.getElem?_set_ne hne]

theorem Planar.boundaryLoop_binfo_get (n : Nat) :
    ∀ (i : Nat) (l : List (PSite × PSite)) (es : List (Nat × Nat × Int))
      (bi : List String) (am : List (Option PSite)) (j : Nat),
      j < l.length → n + i + j < bi.length →
      ((Planar.boundaryLoop n i l es bi am).2.1).getD (n + i + j) ""
        = (if (l.getD j default).2.x = 0 then "L" else "R")
  | i, [], es, bi, am, j, hj, _ => by simp at hj
  | i, q :: rest, es, bi, am, 0, hj, hlen => by
      simp only [Planar.boundaryLoop]
      rw [Planar.boundaryLoop_binfo_lower n (i + 1) rest _ _ _ (n + i + 0) (by omega)]
      have hlt : n + i < bi.length := by omega
      simp [List.getD_eq_getElem?_getD, List.getElem?_set_self, hlt]
  | i, q :: rest, es, bi, am, j + 1, hj, hlen => by
      simp only [Planar.boundaryLoop]
      have h := Planar.boundaryLoop_binfo_get n (i + 1) rest
        (es ++ [(i, n + i,
          |if q.1.state_type = "x" then q.2.x - q.1.x else q.2.y - q.1.y|)])
        (bi.set (n + i) (if q.2.x = 0 then "L" else "R"))
        (am.set (n + i) (some q.2)) j (by simpa using hj) (by simp; omega)
      rw [show n + i + (j + 1) = n + (i + 1) + j from by omega]
      simpa using h

theorem Planar.rrInnerEdges_length (a0 : PSite) (i0 : Nat) :
    ∀ (i1 : Nat) (l : List (PSite × PSite)),
      (Planar.rrInnerEdges a0 i0 i1 l).length = l.length
  | _, [] => rfl
  | i1, _ :: rest => by
      simp [Planar.rrInnerEdges, Planar.rrInnerEdges_length a0 i0 (i1 + 1) rest]

theorem Planar.rrEdges_length_two_mul :
    ∀ (i0 : Nat) (l : List (PSite × PSite)),
      2 * (Planar.rrEdges i0 l).length = l.length * (l.length - 1)
  | _, [] => rfl
  | i0, q0 :: rest => by
      have ih := Planar.rrEdges_length_two_mul (i0 + 1) rest
      have harith : rest.length * (rest.length - 1) + 2 * rest.length
          = (rest.length + 1) * (rest.length + 1 - 1) := by
        cases rest with
        | nil => rfl
        | cons r rs => simp only [List.length_cons, Nat.add_sub_cancel]; ring
      simp only [Planar.rrEdges, List.length_append, Planar.rrInnerEdges_length,
        List.length_cons]
      linarith [ih, harith]

theorem Planar.rrInnerEdges_mem (a0 : PSite) (i0 : Nat) :
    ∀ (i1 : Nat) (l : List (PSite × PSite)) (e : Nat × Nat × Int),
      e ∈ Planar.rrInnerEdges a0 i0 i1 l ↔
        ∃ k, k < l.length ∧
          e = (i0, i1 + k,
            |a0.y - (l.getD k default).1.y| + |a0.x - (l.getD k default).1.x|
              + |a0.z - (l.getD k default).1.z|)
  | _, [], e => by simp [Planar.rrInnerEdges]
  | i1, q1 :: rest, e => by
      simp only [Planar.rrInnerEdges, List.mem_cons,
        Planar.rrInnerEdges_mem a0 i0 (i1 + 1) rest e]
      constructor
      · rintro (rfl | ⟨k, hk, rfl⟩)
        · exact ⟨0, by simp⟩
        · refine ⟨k + 1, by simpa using hk, ?_⟩
          simp [Nat.add_assoc, Nat.add_comm 1 k]
      · rintro ⟨k, hk, rfl⟩
        cases k with
        | zero => left; simp
        | succ k =>
            right
            refine ⟨k, by simpa using hk, ?_⟩
            simp [Nat.add_assoc, Nat.add_comm 1 k]

theorem Planar.rrEdges_mem :
    ∀ (i0 : Nat) (l : List (PSite × PSite)) (e : Nat × Nat × Int),
      e ∈ Planar.rrEdges i0 l ↔
        ∃ p q, p < q ∧ q < l.length ∧
          e = (i0 + p, i0 + q,
            |(l.getD p default).1.y - (l.getD q default).1.y|
              + |(l.getD p default).1.x - (l.getD q default).1.x|
              + |(l.getD p default).1.z - (l.getD q default).1.z|)
  | _, [], e => by simp [Planar.rrEdges]
  | i0, q0 :: rest, e => by
      simp only [Planar.rrEdges, List.mem_append,
        Planar.rrInnerEdges_mem q0.1 i0 (i0 + 1) rest e,
        Planar.rrEdges_mem (i0 + 1) rest e]
      constructor
      · rintro (⟨k, hk, rfl⟩ | ⟨p, q, hpq, hq, rfl⟩)
        · refine ⟨0, k + 1, Nat.succ_pos k, by simpa using hk, ?_⟩
          simp only [List.getD_cons_zero, List.getD_cons_succ, Prod.mk.injEq, and_true]
          omega
        · refine ⟨p + 1, q + 1, by omega, by simpa using hq, ?_⟩
          simp only [List.getD_cons_succ, Prod.mk.injEq, and_true]
          omega
      · rintro ⟨p, q, hpq, hq, rfl⟩
        cases p with
        | zero =>
            left
            cases q with
            | zero => omega
            | succ k =>
                refine ⟨k, by simpa using hq, ?_⟩
                simp only [List.getD_cons_zero, List.getD_cons_succ, Prod.mk.injEq,
                  and_true]
                omega
        | succ p =>
            right
            cases q with
            | zero => omega
            | succ q =>
                refine ⟨p, q, by omega, by simpa using hq, ?_⟩
                simp only [List.getD_cons_succ, Prod.mk.injEq, and_true]
                omega

theorem Planar.rrInnerEdges_nodup (a0 : PSite) (i0 : Nat) :
    ∀ (i1 : Nat) (l : List (PSite × PSite)),
      (Planar.rrInnerEdges a0 i0 i1 l).Nodup
  | _, [] => List.nodup_nil
  | i1, q1 :: rest => by
      simp only [Planar.rrInnerEdges, List.nodup_cons]
      refine ⟨fun hmem => ?_, Planar.rrInnerEdges_nodup a0 i0 (i1 + 1) rest⟩
      rw [Planar.rrInnerEdges_mem] at hmem
      obtain ⟨k, hk, heq⟩ := hmem
      have h2 := congrArg (fun e => e.2.1) heq
      simp only at h2
      omega

theorem Planar.rrEdges_nodup :
    ∀ (i0 : Nat) (l : List (PSite × PSite)), (Planar.rrEdges i0 l).Nodup
  | _, [] => List.nodup_nil
  | i0, q0 :: rest => by
      rw [Planar.rrEdges, List.nodup_append]
      refine ⟨Planar.rrInnerEdges_nodup q0.1 i0 (i0 + 1) rest,
        Planar.rrEdges_nodup (i0 + 1) rest, ?_⟩
      intro e he1 he2
      rw [Planar.rrInnerEdges_mem] at he1
      rw [Planar.rrEdges_mem] at he2
      obtain ⟨k, hk, rfl⟩ := he1
      obtain ⟨p, q, hpq, hq, heq⟩ := he2
      have h1 := congrArg (fun e => e.1) heq
      simp only at h1
      omega

theorem Planar.rbEdges_length (n : Nat) :
    ∀ (i : Nat) (l : List (PSite × PSite)), (Planar.rbEdges n i l).length = l.length
  | _, [] => rfl
  | i, _ :: rest => by
      simp [Planar.rbEdges, Planar.rbEdges_length n (i + 1) rest]

theorem Planar.rbEdges_mem (n : Nat) :
    ∀ (i : Nat) (l : List (PSite × PSite)) (e : Nat × Nat × Int),
      e ∈ Planar.rbEdges n i l ↔
        ∃ j, j < l.length ∧
          e = (i + j, n + i + j,
            |if (l.getD j default).1.state_type = "x"
              then (l.getD j default).2.x - (l.getD j default).1.x
              else (l.getD j default).2.y - (l.getD j default).1.y|)
  | _, [], e => by simp [Planar.rbEdges]
  | i, q :: rest, e => by
      simp only [Planar.rbEdges, List.mem_cons, Planar.rbEdges_mem n (i + 1) rest e]
      constructor
      · rintro (rfl | ⟨j, hj, rfl⟩)
        · exact ⟨0, by simp⟩
        · refine ⟨j + 1, by simpa using hj, ?_⟩
          simp only [List.getD_cons_succ, Prod.mk.injEq]
          refine ⟨by omega, by omega, ?_⟩
          trivial
      · rintro ⟨j, hj, rfl⟩
        cases j with
        | zero => left; simp
        | succ j =>
            right
            refine ⟨j, by simpa using hj, ?_⟩
            simp only [List.getD_cons_succ, Prod.mk.injEq]
            refine ⟨by omega, by omega, ?_⟩
            trivial

theorem Planar.rbEdges_nodup (n : Nat) :
    ∀ (i : Nat) (l : List (PSite × PSite)), (Planar.rbEdges n i l).Nodup
  | _, [] => List.nodup_nil
  | i, q :: rest => by
      simp only [Planar.rbEdges, List.nodup_cons]
      refine ⟨fun hmem => ?_, Planar.rbEdges_nodup n (i + 1) rest⟩
      rw [Planar.rbEdges_mem] at hmem
      obtain ⟨j, hj, heq⟩ := hmem
      have h1 := congrArg (fun e => e.1) heq
      simp only at h1
      omega

theorem Planar.bbInner_length (i0 : Nat) :
    ∀ (i1 k : Nat), (Planar.bbInner i0 i1 k).length = k
  | _, 0 => rfl
  | i1, k + 1 => by
      simp [Planar.bbInner, Planar.bbInner_length i0 (i1 + 1) k]

theorem Planar.bbInner_mem (i0 : Nat) :
    ∀ (i1 k : Nat) (e : Nat × Nat × Int),
      e ∈ Planar.bbInner i0 i1 k ↔ ∃ m, m < k ∧ e = (i0, i1 + m, 0)
  | _, 0, e => by simp [Planar.bbInner]
  | i1, k + 1, e => by
      simp only [Planar.bbInner, List.mem_cons, Planar.bbInner_mem i0 (i1 + 1) k e]
      constructor
      · rintro (rfl | ⟨m, hm, rfl⟩)
        · exact ⟨0, by simp⟩
        · refine ⟨m + 1, by omega, ?_⟩
          simp [Nat.add_assoc, Nat.add_comm 1 m]
      · rintro ⟨m, hm, rfl⟩
        cases m with
        | zero => left; simp
        | succ m =>
            right
            refine ⟨m, by omega, ?_⟩
            simp [Nat.add_assoc, Nat.add_comm 1 m]

theorem Planar.bbInner_nodup (i0 : Nat) :
    ∀ (i1 k : Nat), (Planar.bbInner i0 i1 k).Nodup
  | _, 0 => List.nodup_nil
  | i1, k + 1 => by
      simp only [Planar.bbInner, List.nodup_cons]
      refine ⟨fun hmem => ?_, Planar.bbInner_nodup i0 (i1 + 1) k⟩
      rw [Planar.bbInner_mem] at hmem
      obtain ⟨m, hm, heq⟩ := hmem
      have h2 := congrArg (fun e => e.2.1) heq
      simp only at h2
      omega

theorem Planar.bbOuter_length_two_mul :
    ∀ (i0 k : Nat), 2 * (Planar.bbOuter i0 k).length = k * (k - 1)
  | _, 0 => rfl
  | i0, k + 1 => by
      have ih := Planar.bbOuter_length_two_mul (i0 + 1) k
      have harith : k * (k - 1) + 2 * k = (k + 1) * (k + 1 - 1) := by
        cases k with
        | zero => rfl
        | succ m => simp only [Nat.add_sub_cancel]; ring
      simp only [Planar.bbOuter, List.length_append, Planar.bbInner_length]
      linarith [ih, harith]

theorem Planar.bbOuter_mem :
    ∀ (i0 k : Nat) (e : Nat × Nat × Int),
      e ∈ Planar.bbOuter i0 k ↔
        ∃ p q, p < q ∧ q < k ∧ e = (i0 + p, i0 + q, 0)
  | _, 0, e => by simp [Planar.bbOuter]
  | i0, k + 1, e => by
      simp only [Planar.bbOuter, List.mem_append, Planar.bbInner_mem i0 (i0 + 1) k e,
        Planar.bbOuter_mem (i0 + 1) k e]
      constructor
      · rintro (⟨m, hm, rfl⟩ | ⟨p, q, hpq, hq, rfl⟩)
        · refine ⟨0, m + 1, Nat.succ_pos m, by omega, ?_⟩
          simp only [Prod.mk.injEq, and_true]
          omega
        · refine ⟨p + 1, q + 1, by omega, by omega, ?_⟩
          simp only [Prod.mk.injEq, and_true]
          omega
      · rintro ⟨p, q, hpq, hq, rfl⟩
        cases p with
        | zero =>
            left
            cases q with
            | zero => omega
            | succ m =>
                refine ⟨m, by omega, ?_⟩
                simp only [Prod.mk.injEq, and_true]
                omega
        | succ p =>
            right
            cases q with
            | zero => omega
            | succ q =>
                refine ⟨p, q, by omega, by omega, ?_⟩
                simp only [Prod.mk.injEq, and_true]
                omega

theorem Planar.bbOuter_nodup :
    ∀ (i0 k : Nat), (Planar.bbOuter i0 k).Nodup
  | _, 0 => List.nodup_nil
  | i0, k + 1 => by
      rw [Planar.bbOuter, List.nodup_append]
      refine ⟨Planar.bbInner_nodup i0 (i0 + 1) k, Planar.bbOuter_nodup (i0 + 1) k, ?_⟩
      intro e he1 he2
      rw [Planar.bbInner_mem] at he1
      rw [Planar.bbOuter_mem] at he2
      obtain ⟨m, hm, rfl⟩ := he1
      obtain ⟨p, q, hpq, hq, heq⟩ := he2
      have h1 := congrArg (fun e => e.1) heq
      simp only at h1
      omega

theorem Planar.get_qubit_distances_edges (qubits : List (PSite × PSite)) :
    (Planar.get_qubit_distances qubits).edges
      = Planar.rrEdges 0 qubits
        ++ Planar.rbEdges qubits.length 0 qubits
        ++ Planar.bbOuter qubits.length qubits.length := by
  simp only [Planar.get_qubit_distances]
  rw [Planar.boundaryLoop_edges_eq, Planar.rrOuter_edges_eq]
  simp

theorem Planar.get_qubit_distances_binfo (qubits : List (PSite × PSite))
    (i : Nat) (hi : i < qubits.length) :
    (Planar.get_qubit_distances qubits).boundary_info.getD (qubits.length + i) ""
      = (if (qubits.getD i default).2.x = 0 then "L" else "R") := by
  simp only [Planar.get_qubit_distances]
  exact Planar.boundaryLoop_binfo_get qubits.length 0 qubits _ _ _ i hi
    (by simp; omega)

theorem Planar.rrWeight_eq_spec (A B : PSite) :
    |A.y - B.y| + |A.x - B.x| + |A.z - B.z| = spec_planarWeight A B := by
  simp only [spec_planarWeight]
  ring

theorem Planar.boundaryWeight_eq (A B : PSite) :
    |if A.state_type = "x" then B.x - A.x else B.y - A.y|
      = Planar.boundaryWeight A B := by
  simp only [Planar.boundaryWeight]
  split <;> rfl

theorem Planar.get_qubit_distances_nodup (qubits : List (PSite × PSite)) :
    ((Planar.get_qubit_distances qubits).edges).Nodup := by
  rw [Planar.get_qubit_distances_edges, List.append_assoc, List.nodup_append]
  refine ⟨Planar.rrEdges_nodup 0 qubits, ?_, ?_⟩
  · rw [List.nodup_append]
    refine ⟨Planar.rbEdges_nodup qubits.length 0 qubits,
      Planar.bbOuter_nodup qubits.length qubits.length, ?_⟩
    intro e he1 he2
    rw [Planar.rbEdges_mem] at he1
    rw [Planar.bbOuter_mem] at he2
    obtain ⟨j, hj, rfl⟩ := he1
    obtain ⟨p, q, hpq, hq, heq⟩ := he2
    have h1 := congrArg (fun e => e.1) heq
    simp only at h1
    omega
  · intro e he1 he2
    rw [Planar.rrEdges_mem] at he1
    rw [List.mem_append] at he2
    obtain ⟨p, q, hpq, hq, rfl⟩ := he1
    rcases he2 with he2 | he2
    · rw [Planar.rbEdges_mem] at he2
      obtain ⟨j, hj, heq⟩ := he2
      have h2 := congrArg (fun e => e.2.1) heq
      simp only at h2
      omega
    · rw [Planar.bbOuter_mem] at he2
      obtain ⟨p2, q2, hpq2, hq2, heq⟩ := he2
      have h1 := congrArg (fun e => e.1) heq
      simp only at h1
      omega

/-- C3: for `n` (real-site, paired-boundary-site) tuples, the planar
distance-graph builder returns exactly `n(n-1)/2 + n + n(n-1)/2` edges with
no duplicates: one real-to-real edge per unordered pair of real sites with
weight `|dx| + |dy| + |dz|` (no wrap), one real-to-own-boundary edge per
tuple, one weight-0 edge per unordered pair of the `n` boundary node
indices, and nothing else; for zero tuples the edge list is empty. -/
theorem C3_planar_distance_graph (qubits : List (PSite × PSite)) :
    ((Planar.get_qubit_distances qubits).edges).length
        = qubits.length * (qubits.length - 1) / 2 + qubits.length
          + qubits.length * (qubits.length - 1) / 2
    ∧ ((Planar.get_qubit_distances qubits).edges).Nodup
    ∧ (∀ i j, i < j → j < qubits.length →
        (i, j, spec_planarWeight (qubits.getD i default).1 (qubits.getD j default).1)
          ∈ (Planar.get_qubit_distances qubits).edges)
    ∧ (∀ i, i < qubits.length →
        (i, qubits.length + i,
            Planar.boundaryWeight (qubits.getD i default).1 (qubits.getD i default).2)
          ∈ (Planar.get_qubit_distances qubits).edges)
    ∧ (∀ i j, qubits.length ≤ i → i < j → j < 2 * qubits.length →
        (i, j, 0) ∈ (Planar.get_qubit_distances qubits).edges)
    ∧ (∀ e ∈ (Planar.get_qubit_distances qubits).edges,
        (∃ i j, i < j ∧ j < qubits.length ∧
          e = (i, j, spec_planarWeight (qubits.getD i default).1
                (qubits.getD j default).1))
        ∨ (∃ i, i < qubits.length ∧
            e = (i, qubits.length + i,
              Planar.boundaryWeight (qubits.getD i default).1 (qubits.getD i default).2))
        ∨ (∃ i j, qubits.length ≤ i ∧ i < j ∧ j < 2 * qubits.length ∧
            e = (i, j, 0)))
    ∧ (qubits = [] → (Planar.get_qubit_distances qubits).edges = []) := by
  have hrr := Planar.rrEdges_length_two_mul 0 qubits
  have hbb := Planar.bbOuter_length_two_mul qubits.length qubits.length
  refine ⟨?_, Planar.get_qubit_distances_nodup qubits, ?_, ?_, ?_, ?_, ?_⟩
  · rw [Planar.get_qubit_distances_edges]
    simp only [List.length_append, Planar.rbEdges_length]
    generalize hM : qubits.length * (qubits.length - 1) = M at hrr hbb ⊢
    omega
  · intro i j hij hj
    rw [Planar.get_qubit_distances_edges]
    refine List.mem_append_left _ (List.mem_append_left _ ?_)
    rw [Planar.rrEdges_mem]
    refine ⟨i, j, hij, hj, ?_⟩
    rw [Planar.rrWeight_eq_spec]
    simp
  · intro i hi
    rw [Planar.get_qubit_distances_edges]
    refine List.mem_append_left _ (List.mem_append_right _ ?_)
    rw [Planar.rbEdges_mem]
    refine ⟨i, hi, ?_⟩
    rw [Planar.boundaryWeight_eq]
    simp
  · intro i j hni hij hj
    rw [Planar.get_qubit_distances_edges]
    refine List.mem_append_right _ ?_
    rw [Planar.bbOuter_mem]
    exact ⟨i - qubits.length, j - qubits.length, by omega, by omega, by
      simp only [Prod.mk.injEq, and_true]
      omega⟩
  · intro e he
    rw [Planar.get_qubit_distances_edges, List.append_assoc, List.mem_append,
      List.mem_append] at he
    rcases he with he | he | he
    · rw [Planar.rrEdges_mem] at he
      obtain ⟨p, q, hpq, hq, rfl⟩ := he
      refine Or.inl ⟨p, q, hpq, hq, ?_⟩
      rw [Planar.rrWeight_eq_spec]
      simp
    · rw [Planar.rbEdges_mem] at he
      obtain ⟨j, hj, rfl⟩ := he
      refine Or.inr (Or.inl ⟨j, hj, ?_⟩)
      rw [Planar.boundaryWeight_eq]
      simp
    · rw [Planar.bbOuter_mem] at he
      obtain ⟨p, q, hpq, hq, rfl⟩ := he
      exact Or.inr (Or.inr ⟨qubits.length + p, qubits.length + q, by omega, by omega,
        by omega, rfl⟩)
  · intro h
    subst h
    rfl

/-- Witness for C3: a single planar tuple produces exactly its one
real-to-boundary edge `(0, 1, 1)` (real site at `x = 1`, boundary at
`x = 0`), and the two-tuple count is `1 + 2 + 1 = 4`. -/
theorem C3_planar_distance_graph_witness :
    (0, 1, (1 : Int)) ∈ (Planar.get_qubit_distances
        [(⟨1, 0, 0, "x", "A"⟩, ⟨0, 0, 0, "x", "pA"⟩)]).edges
    ∧ ((Planar.get_qubit_distances
        [(⟨1, 0, 0, "x", "A"⟩, ⟨0, 0, 0, "x", "pA"⟩)]).edges).length = 1 := by
  have h := C3_planar_distance_graph [(⟨1, 0, 0, "x", "A"⟩, ⟨0, 0, 0, "x", "pA"⟩)]
  have hb := h.2.2.2.1 0 (by decide)
  have hw : Planar.boundaryWeight
      ((([(⟨1, 0, 0, "x", "A"⟩, ⟨0, 0, 0, "x", "pA"⟩)] :
          List (PSite × PSite)).getD 0 default).1)
      ((([(⟨1, 0, 0, "x", "A"⟩, ⟨0, 0, 0, "x", "pA"⟩)] :
          List (PSite × PSite)).getD 0 default).2) = 1 := by
    decide
  rw [hw] at hb
  exact ⟨hb, h.1.trans (by decide)⟩

/-- C4: the real-to-own-boundary edge of the `i`-th planar tuple carries
weight equal to the perpendicular distance from the real site to the
lattice edge on the axis matching the real site's state type (horizontal
for `"x"`, vertical otherwise), and, provided boundary x-coordinates are
the lattice extents `0` or `P`, the boundary node at index `n + i` is
tagged `"L"` exactly when its boundary coordinate is the minimum extent `0`
and `"R"` exactly when it is the maximum extent `P`. -/
theorem C4_planar_boundary_edge (qubits : List (PSite × PSite)) (i : Nat)
    (P : Int) (hi : i < qubits.length) (hP : 0 < P)
    (hx : (qubits.getD i default).2.x = 0 ∨ (qubits.getD i default).2.x = P) :
    (i, qubits.length + i,
        Planar.boundaryWeight (qubits.getD i default).1 (qubits.getD i default).2)
      ∈ (Planar.get_qubit_distances qubits).edges
    ∧ ((Planar.get_qubit_distances qubits).boundary_info.getD (qubits.length + i) ""
          = "L" ↔ (qubits.getD i default).2.x = 0)
    ∧ ((Planar.get_qubit_distances qubits).boundary_info.getD (qubits.length + i) ""
          = "R" ↔ (qubits.getD i default).2.x = P) := by
  refine ⟨?_, ?_, ?_⟩
  · rw [Planar.get_qubit_distances_edges]
    refine List.mem_append_left _ (List.mem_append_right _ ?_)
    rw [Planar.rbEdges_mem]
    refine ⟨i, hi, ?_⟩
    rw [Planar.boundaryWeight_eq]
    simp
  · rw [Planar.get_qubit_distances_binfo qubits i hi]
    rcases hx with hx0 | hxP
    · rw [if_pos hx0]
      exact ⟨fun _ => hx0, fun _ => rfl⟩
    · rw [if_neg (by omega)]
      constructor
      · intro h
        exact absurd h (by decide)
      · intro h
        omega
  · rw [Planar.get_qubit_distances_binfo qubits i hi]
    rcases hx with hx0 | hxP
    · rw [if_pos hx0]
      constructor
      · intro h
        exact absurd h (by decide)
      · intro h
        omega
    · rw [if_neg (by omega)]
      exact ⟨fun _ => hxP, fun _ => rfl⟩

/-- Witness for C4, the spec scenario: one real x-type site at `x = 1` with
its boundary partner at `x = 0` on a lattice with extents `0` and `5`
yields real-to-boundary weight `1` and the tag `"L"` for boundary node
index `1`. -/
theorem C4_planar_boundary_edge_witness :
    (0, 1, (1 : Int)) ∈ (Planar.get_qubit_distances
        [(⟨1, 2, 0, "x", "A"⟩, ⟨0, 2, 0, "x", "pA"⟩)]).edges
    ∧ (Planar.get_qubit_distances
        [(⟨1, 2, 0, "x", "A"⟩, ⟨0, 2, 0, "x", "pA"⟩)]).boundary_info.getD 1 ""
        = "L" := by
  have h := C4_planar_boundary_edge
    [(⟨1, 2, 0, "x", "A"⟩, ⟨0, 2, 0, "x", "pA"⟩)] 0 5 (by decide) (by decide)
    (Or.inl (by decide))
  have hw : Planar.boundaryWeight
      ((([(⟨1, 2, 0, "x", "A"⟩, ⟨0, 2, 0, "x", "pA"⟩)] :
          List (PSite × PSite)).getD 0 default).1)
      ((([(⟨1, 2, 0, "x", "A"⟩, ⟨0, 2, 0, "x", "pA"⟩)] :
          List (PSite × PSite)).getD 0 default).2) = 1 := by
    decide
  refine ⟨?_, ?_⟩
  · have hb := h.1
    rw [hw] at hb
    exact hb
  · exact h.2.1.mpr (by decide)

/-! ### Planar failure estimator: hub selection and shortcut edges -/

theorem Planar.pickHubs_aux :
    ∀ (bn : List PSite) (st : Option PSite × Option PSite),
      ((bn.foldl (fun st e =>
          if e.x = 0 ∧ e.y = 0 then (some e, st.2)
          else if e.y = 0 then (st.1, some e)
          else st) st).1 = st.1
        ∨ ∃ s, (bn.foldl (fun st e =>
            if e.x = 0 ∧ e.y = 0 then (some e, st.2)
            else if e.y = 0 then (st.1, some e)
            else st) st).1 = some s ∧ s ∈ bn ∧ s.x = 0 ∧ s.y = 0)
      ∧ ((bn.foldl (fun st e =>
          if e.x = 0 ∧ e.y = 0 then (some e, st.2)
          else if e.y = 0 then (st.1, some e)
          else st) st).2 = st.2
        ∨ ∃ t, (bn.foldl (fun st e =>
            if e.x = 0 ∧ e.y = 0 then (some e, st.2)
            else if e.y = 0 then (st.1, some e)
            else st) st).2 = some t ∧ t ∈ bn ∧ t.y = 0 ∧ t.x ≠ 0)
  | [], st => ⟨Or.inl rfl, Or.inl rfl⟩
  | e :: bn, st => by
      rw [List.foldl_cons]
      have ih := Planar.pickHubs_aux bn
        (if e.x = 0 ∧ e.y = 0 then (some e, st.2)
          else if e.y = 0 then (st.1, some e)
          else st)
      constructor
      · rcases ih.1 with h | ⟨s, hs, hmem, hx, hy⟩
        · rw [h]
          by_cases hc1 : e.x = 0 ∧ e.y = 0
          · exact Or.inr ⟨e, by simp [hc1], List.mem_cons_self e bn, hc1.1, hc1.2⟩
          · by_cases hc2 : e.y = 0
            · have hx : ¬e.x = 0 := fun hx0 => hc1 ⟨hx0, hc2⟩
              exact Or.inl (by simp [hc1, hc2, hx])
            · exact Or.inl (by simp [hc1, hc2])
        · exact Or.inr ⟨s, hs, List.mem_cons_of_mem e hmem, hx, hy⟩
      · rcases ih.2 with h | ⟨t, ht, hmem, hy, hx⟩
        · rw [h]
          by_cases hc1 : e.x = 0 ∧ e.y = 0
          · exact Or.inl (by simp [hc1])
          · by_cases hc2 : e.y = 0
            · have hx : ¬e.x = 0 := fun hx0 => hc1 ⟨hx0, hc2⟩
              refine Or.inr ⟨e, by simp [hc1, hc2, hx], List.mem_cons_self e bn, hc2, hx⟩
            · exact Or.inl (by simp [hc1, hc2])
        · exact Or.inr ⟨t, ht, List.mem_cons_of_mem e hmem, hy, hx⟩

theorem Planar.pickHubs_fst_some (bn : List PSite) (s : PSite)
    (h : (Planar.pickHubs bn).1 = some s) : s ∈ bn ∧ s.x = 0 ∧ s.y = 0 := by
  rw [Planar.pickHubs] at h
  rcases (Planar.pickHubs_aux bn (none, none)).1 with h2 | ⟨s2, hs2, hmem, hx, hy⟩
  · exact absurd (h2.symm.trans h) (by simp)
  · obtain rfl : s2 = s := Option.some_injective _ (hs2.symm.trans h)
    exact ⟨hmem, hx, hy⟩

theorem Planar.pickHubs_snd_some (bn : List PSite) (t : PSite)
    (h : (Planar.pickHubs bn).2 = some t) : t ∈ bn ∧ t.y = 0 ∧ t.x ≠ 0 := by
  rw [Planar.pickHubs] at h
  rcases (Planar.pickHubs_aux bn (none, none)).2 with h2 | ⟨t2, ht2, hmem, hy, hx⟩
  · exact absurd (h2.symm.trans h) (by simp)
  · obtain rfl : t2 = t := Option.some_injective _ (ht2.symm.trans h)
    exact ⟨hmem, hy, hx⟩

theorem Planar.pairShortcuts_mem {W : Type} [Zero W] (amind : List (Option PSite))
    (dq_edges : List DQEdge) (n0 n1 : Nat) (u v : PSite) (w : W) :
    (u, v, w) ∈ Planar.pairShortcuts amind dq_edges n0 n1 ↔
      ∃ dq_e ∈ dq_edges, ∃ a ∈ [n0, n1], ∃ b ∈ [dq_e.node0, dq_e.node1],
        2 * Planar.get_weight (Planar.amindAt amind a) b
          < Planar.get_weight (Planar.amindAt amind n0) (Planar.amindAt amind n1)
        ∧ Planar.amindAt amind a = u ∧ b = v ∧ (0 : W) = w := by
  simp [Planar.pairShortcuts, Option.ite_none_right_eq_some, Prod.mk.injEq]

theorem Planar.shortcutEdges_acc {W : Type} [Zero W] (binfo : List String)
    (amind : List (Option PSite)) (dq_edges : List DQEdge) :
    ∀ (m : List (Nat × Nat)) (acc : List (PSite × PSite × W)),
      m.foldl (fun acc p =>
          if binfo.getD p.1 "" = "" ∨ binfo.getD p.2 "" = "" then
            acc ++ Planar.pairShortcuts amind dq_edges p.1 p.2
          else acc) acc
        = acc ++ Planar.shortcutEdges m binfo amind dq_edges
  | [], acc => by simp [Planar.shortcutEdges]
  | p :: m, acc => by
      rw [List.foldl_cons, Planar.shortcutEdges_acc binfo amind dq_edges m _]
      conv_rhs => rw [Planar.shortcutEdges, List.foldl_cons,
        Planar.shortcutEdges_acc binfo amind dq_edges m _]
      by_cases hc : binfo.getD p.1 "" = "" ∨ binfo.getD p.2 "" = ""
      · rw [if_pos hc, if_pos hc]
        simp
      · rw [if_neg hc, if_neg hc]
        simp

theorem Planar.shortcutEdges_cons {W : Type} [Zero W] (p : Nat × Nat)
    (m : List (Nat × Nat)) (binfo : List String) (amind : List (Option PSite))
    (dq_edges : List DQEdge) :
    @Planar.shortcutEdges W _ (p :: m) binfo amind dq_edges
      = (if binfo.getD p.1 "" = "" ∨ binfo.getD p.2 "" = "" then
          Planar.pairShortcuts amind dq_edges p.1 p.2 else [])
        ++ Planar.shortcutEdges m binfo amind dq_edges := by
  rw [Planar.shortcutEdges, List.foldl_cons,
    Planar.shortcutEdges_acc binfo amind dq_edges m _]
  by_cases hc : binfo.getD p.1 "" = "" ∨ binfo.getD p.2 "" = ""
  · rw [if_pos hc, if_pos hc]
    simp
  · rw [if_neg hc, if_neg hc]

theorem Planar.shortcutEdges_mem {W : Type} [Zero W] (binfo : List String)
    (amind : List (Option PSite)) (dq_edges : List DQEdge) :
    ∀ (m : List (Nat × Nat)) (e : PSite × PSite × W),
      e ∈ Planar.shortcutEdges m binfo amind dq_edges ↔
        ∃ n0 n1, (n0, n1) ∈ m ∧ (binfo.getD n0 "" = "" ∨ binfo.getD n1 "" = "")
          ∧ e ∈ Planar.pairShortcuts amind dq_edges n0 n1
  | [], e => by simp [Planar.shortcutEdges]
  | (p1, p2) :: m, e => by
      rw [Planar.shortcutEdges_cons, List.mem_append,
        Planar.shortcutEdges_mem binfo amind dq_edges m e]
      constructor
      · rintro (h1 | ⟨n0, n1, hm, hc, he⟩)
        · by_cases hc : binfo.getD p1 "" = "" ∨ binfo.getD p2 "" = ""
          · rw [if_pos hc] at h1
            exact ⟨p1, p2, List.mem_cons_self _ _, hc, h1⟩
          · rw [if_neg hc] at h1
            simp at h1
        · exact ⟨n0, n1, List.mem_cons_of_mem _ hm, hc, he⟩
      · rintro ⟨n0, n1, hm, hc, he⟩
        rcases List.mem_cons.mp hm with heq | hm2
        · left
          obtain ⟨rfl, rfl⟩ : n0 = p1 ∧ n1 = p2 := by
            simpa [Prod.mk.injEq] using heq
          rw [if_pos hc]
          exact he
        · exact Or.inr ⟨n0, n1, hm2, hc, he⟩

theorem Planar.shortcutEdges_skip {W : Type} [Zero W] (binfo : List String)
    (amind : List (Option PSite)) (dq_edges : List DQEdge)
    (m1 m2 : List (Nat × Nat)) (n0 n1 : Nat)
    (h0 : binfo.getD n0 "" ≠ "") (h1 : binfo.getD n1 "" ≠ "") :
    @Planar.shortcutEdges W _ (m1 ++ (n0, n1) :: m2) binfo amind dq_edges
      = @Planar.shortcutEdges W _ (m1 ++ m2) binfo amind dq_edges := by
  have hcond : ¬(binfo.getD n0 "" = "" ∨ binfo.getD n1 "" = "") := by tauto
  simp only [List.getD_eq_getElem?_getD] at hcond
  simp [Planar.shortcutEdges, List.foldl_append, hcond]

/-- C8 (amended): the planar failure estimator performs no ambiguity check
on the hub selection.  Whenever the same-side assertions pass and the
`for`/`if`/`elif` scan leaves both hub variables bound — no matter how many
boundary nodes qualified, later qualifying nodes silently overwriting
earlier ones — `calc_phi` returns the Dijkstra path length between the two
selected hubs, which are qualifying members of the boundary-node set; it
fails only when a hub variable stays unbound or an assertion fails. -/
theorem C8_no_ambiguity_check {W L : Type} [Zero W] (logw : W)
    (dijkstra : List (PSite × PSite × W) → PSite → PSite → L)
    (dq_edges : List DQEdge) (matching : List (Nat × Nat))
    (binfo : List String) (amind : List (Option PSite)) (sizeX : Int)
    (gu : List (PSite × PSite × W)) (s t : PSite)
    (hu : Planar.unifyEdges sizeX (Planar.phiBase logw dq_edges).1 = .ok gu)
    (hp : Planar.pickHubs (Planar.phiBase logw dq_edges).1 = (some s, some t)) :
    Planar.calc_phi logw dijkstra dq_edges matching binfo amind sizeX
      = .ok (dijkstra ((Planar.phiBase logw dq_edges).2
          ++ Planar.shortcutEdges matching binfo amind dq_edges ++ gu) s t)
    ∧ s ∈ (Planar.phiBase logw dq_edges).1 ∧ s.x = 0 ∧ s.y = 0
    ∧ t ∈ (Planar.phiBase logw dq_edges).1 ∧ t.y = 0 ∧ t.x ≠ 0 := by
  have hs := Planar.pickHubs_fst_some (Planar.phiBase logw dq_edges).1 s (by rw [hp])
  have ht := Planar.pickHubs_snd_some (Planar.phiBase logw dq_edges).1 t (by rw [hp])
  refine ⟨?_, hs.1, hs.2.1, hs.2.2, ht.1, ht.2.1, ht.2.2⟩
  simp only [Planar.calc_phi]
  rw [hu, hp]

/-- Witness for C8: the concrete lattice of the C8 counterexample, with the
same-side assertions passing and both hubs bound, yields the path length
`.ok 7` through the amended theorem. -/
theorem C8_no_ambiguity_check_witness :
    @Planar.calc_phi Int Int _ 1 (fun _ _ _ => 7)
        [⟨"x", ⟨0, 0, 0, "x", "pA"⟩, ⟨1, 0, 0, "x", "A"⟩⟩,
          ⟨"x", ⟨0, 0, 1, "x", "pA"⟩, ⟨1, 0, 0, "x", "A"⟩⟩,
          ⟨"x", ⟨5, 0, 0, "x", "pA"⟩, ⟨1, 0, 0, "x", "A"⟩⟩]
        [] [] [] 5
      = .ok 7 := by
  have h := @C8_no_ambiguity_check Int Int _ 1 (fun _ _ _ => 7)
    [⟨"x", ⟨0, 0, 0, "x", "pA"⟩, ⟨1, 0, 0, "x", "A"⟩⟩,
      ⟨"x", ⟨0, 0, 1, "x", "pA"⟩, ⟨1, 0, 0, "x", "A"⟩⟩,
      ⟨"x", ⟨5, 0, 0, "x", "pA"⟩, ⟨1, 0, 0, "x", "A"⟩⟩]
    [] [] [] 5
    [(⟨0, 0, 0, "x", "pA"⟩, ⟨0, 0, 1, "x", "pA"⟩, 0),
      (⟨0, 0, 1, "x", "pA"⟩, ⟨0, 0, 0, "x", "pA"⟩, 0)]
    ⟨0, 0, 1, "x", "pA"⟩ ⟨5, 0, 0, "x", "pA"⟩ rfl rfl
  exact h.1

/-- C8 counterexample: two distinct boundary nodes both qualify as the
origin hub (both at location `(0, 0)`, on different layers), yet `calc_phi`
returns a path length instead of failing with any ambiguity condition. -/
theorem C8_counterexample :
    @Planar.calc_phi Int Int _ 1 (fun _ _ _ => 7)
        [⟨"x", ⟨0, 0, 0, "x", "pA"⟩, ⟨1, 0, 0, "x", "A"⟩⟩,
          ⟨"x", ⟨0, 0, 1, "x", "pA"⟩, ⟨1, 0, 0, "x", "A"⟩⟩,
          ⟨"x", ⟨5, 0, 0, "x", "pA"⟩, ⟨1, 0, 0, "x", "A"⟩⟩]
        [] [] [] 5
      = .ok 7
    ∧ (⟨0, 0, 0, "x", "pA"⟩ : PSite) ∈ (@Planar.phiBase Int 1
        [⟨"x", ⟨0, 0, 0, "x", "pA"⟩, ⟨1, 0, 0, "x", "A"⟩⟩,
          ⟨"x", ⟨0, 0, 1, "x", "pA"⟩, ⟨1, 0, 0, "x", "A"⟩⟩,
          ⟨"x", ⟨5, 0, 0, "x", "pA"⟩, ⟨1, 0, 0, "x", "A"⟩⟩]).1
    ∧ (⟨0, 0, 1, "x", "pA"⟩ : PSite) ∈ (@Planar.phiBase Int 1
        [⟨"x", ⟨0, 0, 0, "x", "pA"⟩, ⟨1, 0, 0, "x", "A"⟩⟩,
          ⟨"x", ⟨0, 0, 1, "x", "pA"⟩, ⟨1, 0, 0, "x", "A"⟩⟩,
          ⟨"x", ⟨5, 0, 0, "x", "pA"⟩, ⟨1, 0, 0, "x", "A"⟩⟩]).1
    ∧ ((⟨0, 0, 0, "x", "pA"⟩ : PSite) ≠ ⟨0, 0, 1, "x", "pA"⟩)
    ∧ (⟨0, 0, 0, "x", "pA"⟩ : PSite).x = 0 ∧ (⟨0, 0, 0, "x", "pA"⟩ : PSite).y = 0
    ∧ (⟨0, 0, 1, "x", "pA"⟩ : PSite).x = 0
    ∧ (⟨0, 0, 1, "x", "pA"⟩ : PSite).y = 0 := by
  exact ⟨rfl, by decide, by decide, by decide, rfl, rfl, rfl, rfl⟩

/-- C9 (amended): in the planar failure estimator, zero-weight shortcut
edges are added exactly for the matched pairs in which at least one
endpoint is a real (untagged) node: each qualifying matched endpoint is
connected to every adjacency-structure node whose lattice distance to it is
less than half the matched pair's lattice distance; matched pairs whose
endpoints are both boundary-tagged nodes add no shortcut edges at all. -/
theorem C9_shortcut_characterization {W : Type} [Zero W]
    (matching : List (Nat × Nat)) (binfo : List String)
    (amind : List (Option PSite)) (dq_edges : List DQEdge) :
    (∀ (u v : PSite) (w : W),
      (u, v, w) ∈ Planar.shortcutEdges matching binfo amind dq_edges ↔
        ∃ n0 n1, (n0, n1) ∈ matching
          ∧ (binfo.getD n0 "" = "" ∨ binfo.getD n1 "" = "")
          ∧ ∃ dq_e ∈ dq_edges, ∃ a ∈ [n0, n1], ∃ b ∈ [dq_e.node0, dq_e.node1],
              2 * Planar.get_weight (Planar.amindAt amind a) b
                < Planar.get_weight (Planar.amindAt amind n0)
                    (Planar.amindAt amind n1)
              ∧ Planar.amindAt amind a = u ∧ b = v ∧ (0 : W) = w)
    ∧ (∀ (m1 m2 : List (Nat × Nat)) (n0 n1 : Nat),
        binfo.getD n0 "" ≠ "" → binfo.getD n1 "" ≠ "" →
        @Planar.shortcutEdges W _ (m1 ++ (n0, n1) :: m2) binfo amind dq_edges
          = @Planar.shortcutEdges W _ (m1 ++ m2) binfo amind dq_edges) := by
  refine ⟨?_, fun m1 m2 n0 n1 h0 h1 =>
    Planar.shortcutEdges_skip binfo amind dq_edges m1 m2 n0 n1 h0 h1⟩
  intro u v w
  rw [Planar.shortcutEdges_mem]
  constructor
  · rintro ⟨n0, n1, hm, hc, he⟩
    rw [Planar.pairShortcuts_mem] at he
    exact ⟨n0, n1, hm, hc, he⟩
  · rintro ⟨n0, n1, hm, hc, he⟩
    exact ⟨n0, n1, hm, hc, (Planar.pairShortcuts_mem amind dq_edges n0 n1 u v w).mpr he⟩

/-- Witness for C9: on a concrete instance a real-real matched pair of
distance 4 opens a shortcut to a structure node at distance 1 (the
characterization's existential, instantiated), and on a concrete instance
with both endpoints tagged the pair is skipped. -/
theorem C9_shortcut_characterization_witness :
    (∃ n0 n1, (n0, n1) ∈ [(0, 1)]
      ∧ ((["", ""] : List String).getD n0 "" = ""
          ∨ (["", ""] : List String).getD n1 "" = "")
      ∧ ∃ dq_e ∈ [(⟨"x", ⟨1, 0, 0, "x", "A"⟩, ⟨4, 0, 0, "x", "A"⟩⟩ : DQEdge)],
          ∃ a ∈ [n0, n1], ∃ b ∈ [dq_e.node0, dq_e.node1],
            2 * Planar.get_weight
                (Planar.amindAt [some ⟨0, 0, 0, "x", "A"⟩, some ⟨4, 0, 0, "x", "A"⟩] a) b
              < Planar.get_weight
                  (Planar.amindAt [some ⟨0, 0, 0, "x", "A"⟩, some ⟨4, 0, 0, "x", "A"⟩] n0)
                  (Planar.amindAt [some ⟨0, 0, 0, "x", "A"⟩, some ⟨4, 0, 0, "x", "A"⟩] n1)
            ∧ Planar.amindAt [some ⟨0, 0, 0, "x", "A"⟩, some ⟨4, 0, 0, "x", "A"⟩] a
                = ⟨0, 0, 0, "x", "A"⟩
            ∧ b = ⟨1, 0, 0, "x", "A"⟩ ∧ (0 : Int) = 0)
    ∧ @Planar.shortcutEdges Int _ ([] ++ (0, 1) :: []) ["L", "R"]
        [some ⟨0, 0, 0, "x", "A"⟩, some ⟨4, 0, 0, "x", "A"⟩]
        [⟨"x", ⟨1, 0, 0, "x", "A"⟩, ⟨4, 0, 0, "x", "A"⟩⟩]
      = @Planar.shortcutEdges Int _ ([] ++ []) ["L", "R"]
        [some ⟨0, 0, 0, "x", "A"⟩, some ⟨4, 0, 0, "x", "A"⟩]
        [⟨"x", ⟨1, 0, 0, "x", "A"⟩, ⟨4, 0, 0, "x", "A"⟩⟩] := by
  constructor
  · exact ((@C9_shortcut_characterization Int _ [(0, 1)] ["", ""]
      [some ⟨0, 0, 0, "x", "A"⟩, some ⟨4, 0, 0, "x", "A"⟩]
      [⟨"x", ⟨1, 0, 0, "x", "A"⟩, ⟨4, 0, 0, "x", "A"⟩⟩]).1
      ⟨0, 0, 0, "x", "A"⟩ ⟨1, 0, 0, "x", "A"⟩ 0).mp (by decide)
  · exact (@C9_shortcut_characterization Int _ [(0, 1)] ["L", "R"]
      [some ⟨0, 0, 0, "x", "A"⟩, some ⟨4, 0, 0, "x", "A"⟩]
      [⟨"x", ⟨1, 0, 0, "x", "A"⟩, ⟨4, 0, 0, "x", "A"⟩⟩]).2
      [] [] 0 1 (by decide) (by decide)

/-- C9 counterexample: a matched pair with no boundary endpoint (both
`boundary_info` entries empty) does add shortcut edges, contradicting the
claim that shortcut edges appear only for pairs with a boundary endpoint:
real sites at distance 4 gain a zero-weight edge to a structure node at
distance 1. -/
theorem C9_counterexample :
    ((["", ""] : List String).getD 0 "" = "" ∧ (["", ""] : List String).getD 1 "" = "")
    ∧ ((⟨0, 0, 0, "x", "A"⟩ : PSite), (⟨1, 0, 0, "x", "A"⟩ : PSite), (0 : Int)) ∈
        @Planar.shortcutEdges Int _ [(0, 1)] ["", ""]
          [some ⟨0, 0, 0, "x", "A"⟩, some ⟨4, 0, 0, "x", "A"⟩]
          [⟨"x", ⟨1, 0, 0, "x", "A"⟩, ⟨4, 0, 0, "x", "A"⟩⟩] := by
  decide
